import Mathlib

/-!
Verification of the Codex CLI language-model provider
(`src/codex-cli-language-model.ts`).

The development shallowly embeds the event-translation and
process-orchestration layer of the provider:

* a `Json` value type standing for the values produced by JavaScript's
  `JSON.parse` (numbers are modelled as integers: the event protocol only
  carries integral token counts and exit codes; floating point is out of
  scope, and the parser rejects fractional literals);
* `parseExperimentalJsonEvent`, the tolerant line parser;
* the per-event state transitions of `doGenerate` (`genStep`) and of
  `doStream` (`streamStep` / `handleItemEvent`), with the stream parts
  emitted on the channel reified as a `StreamPart` list;
* the exit handlers (`genConclusion`, `finishStream`);
* the argument builder (`buildArgs`, `addConfigOverride`,
  `serializeConfigValue`, `sanitizeJsonSchema`).

Effectful ingredients are made explicit as parameters: `randomUUID` is
replaced by a deterministic fresh-name counter, file reads by
`Option String` arguments (`none` models a read that throws), and the
temporary paths produced by `mkdtempSync` by explicit path arguments.
-/

/-- Json values as produced by JavaScript's `JSON.parse`.  Object fields keep
their textual order; duplicate keys may occur in the list, and field lookup
takes the last occurrence, as `JSON.parse` does. -/
inductive Json where
  | null : Json
  | bool (b : Bool) : Json
  | num (n : Int) : Json
  | str (s : String) : Json
  | arr (elems : List Json) : Json
  | obj (fields : List (String × Json)) : Json
deriving Repr

/-- JavaScript truthiness of a parsed JSON value. -/
def jsTruthy : Json → Bool
  | .null => false
  | .bool b => b
  | .num n => n != 0
  | .str s => !s.isEmpty
  | .arr _ => true
  | .obj _ => true

/-- Property access `value[key]` on a parsed JSON value: `none` plays the
role of JavaScript's `undefined` (missing field, or access on a
non-object).  Duplicate keys resolve to the last occurrence. -/
def jField : Json → String → Option Json
  | .obj fields, k => (fields.reverse.find? (fun kv => kv.1 == k)).map (fun kv => kv.2)
  | _, _ => none

/-- Reading `value[key]` guarded by `typeof value[key] === 'string'`. -/
def jStrField (j : Json) (k : String) : Option String :=
  match jField j k with
  | some (.str s) => some s
  | _ => none

/-- Reading `value[key]` guarded by `typeof value[key] === 'number'`. -/
def jIntField (j : Json) (k : String) : Option Int :=
  match jField j k with
  | some (.num n) => some n
  | _ => none

/-- String prefix test (JavaScript's `startsWith`), on the underlying
character lists so that it evaluates by kernel reduction. -/
def strStarts (p s : String) : Bool :=
  s.data.take p.data.length == p.data

/-! JSON parsing.  `JSON.parse` is modelled by a fuel-indexed recursive
descent parser over the character list of the line; any lexical error makes
the whole parse fail, which the provider maps to `undefined`. -/

/-- Whitespace skipping as in `JSON.parse`. -/
def skipWs : List Char → List Char
  | c :: rest =>
    if c = ' ' ∨ c = '\t' ∨ c = '\n' ∨ c = '\r' then skipWs rest else c :: rest
  | [] => []

/-- Hexadecimal digit value, for string escapes. -/
def hexVal (c : Char) : Option Nat :=
  if '0' ≤ c ∧ c ≤ '9' then some (c.toNat - '0'.toNat)
  else if 'a' ≤ c ∧ c ≤ 'f' then some (c.toNat - 'a'.toNat + 10)
  else if 'A' ≤ c ∧ c ≤ 'F' then some (c.toNat - 'A'.toNat + 10)
  else none

/-- Body of a JSON string literal (after the opening quote), with the escape
sequences of RFC 8259.  Surrogate pairs are not recombined. -/
def parseStringBody : Nat → List Char → String → Option (String × List Char)
  | 0, _, _ => none
  | _ + 1, [], _ => none
  | fuel + 1, c :: rest, acc =>
    if c = '"' then some (acc, rest)
    else if c = '\\' then
      match rest with
      | [] => none
      | e :: rest2 =>
        if e = '"' then parseStringBody fuel rest2 (acc.push '"')
        else if e = '\\' then parseStringBody fuel rest2 (acc.push '\\')
        else if e = '/' then parseStringBody fuel rest2 (acc.push '/')
        else if e = 'b' then parseStringBody fuel rest2 (acc.push (Char.ofNat 8))
        else if e = 'f' then parseStringBody fuel rest2 (acc.push (Char.ofNat 12))
        else if e = 'n' then parseStringBody fuel rest2 (acc.push '\n')
        else if e = 'r' then parseStringBody fuel rest2 (acc.push '\r')
        else if e = 't' then parseStringBody fuel rest2 (acc.push '\t')
        else if e = 'u' then
          match rest2 with
          | h1 :: h2 :: h3 :: h4 :: rest3 =>
            match hexVal h1, hexVal h2, hexVal h3, hexVal h4 with
            | some a, some b, some c2, some d =>
              parseStringBody fuel rest3
                (acc.push (Char.ofNat (a * 4096 + b * 256 + c2 * 16 + d)))
            | _, _, _, _ => none
          | _ => none
        else none
    else parseStringBody fuel rest (acc.push c)

/-- Split the longest leading run of decimal digits. -/
def takeDigits : List Char → List Char × List Char
  | c :: rest =>
    if c.isDigit then
      let (ds, r) := takeDigits rest
      (c :: ds, r)
    else ([], c :: rest)
  | [] => ([], [])

/-- Numeric value of a digit run. -/
def digitsToNat (ds : List Char) : Nat :=
  ds.foldl (fun acc c => acc * 10 + (c.toNat - '0'.toNat)) 0

/-- Leading-zero rule of JSON integers: `0` alone is fine, `01` is not. -/
def digitsWellFormed : List Char → Bool
  | '0' :: _ :: _ => false
  | [] => false
  | _ => true

mutual

/-- One JSON value, returning the unconsumed remainder.  Fractional and
exponent parts are not accepted (they leave a `.`/`e` in the remainder,
failing the enclosing context), matching the integral protocol values. -/
def parseJsonVal : Nat → List Char → Option (Json × List Char)
  | 0, _ => none
  | fuel + 1, cs =>
    match skipWs cs with
    | [] => none
    | c :: rest =>
      if c = 'n' then
        match rest with
        | 'u' :: 'l' :: 'l' :: r => some (.null, r)
        | _ => none
      else if c = 't' then
        match rest with
        | 'r' :: 'u' :: 'e' :: r => some (.bool true, r)
        | _ => none
      else if c = 'f' then
        match rest with
        | 'a' :: 'l' :: 's' :: 'e' :: r => some (.bool false, r)
        | _ => none
      else if c = '"' then
        match parseStringBody (fuel + 1) rest "" with
        | some (s, r) => some (.str s, r)
        | none => none
      else if c = '[' then
        match skipWs rest with
        | ']' :: r => some (.arr [], r)
        | r2 =>
          match parseElems fuel r2 with
          | some (es, r) => some (.arr es, r)
          | none => none
      else if c = '{' then
        match skipWs rest with
        | '}' :: r => some (.obj [], r)
        | r2 =>
          match parseFields fuel r2 with
          | some (fs, r) => some (.obj fs, r)
          | none => none
      else if c = '-' then
        match takeDigits rest with
        | (ds, r) =>
          if digitsWellFormed ds then some (.num (-(digitsToNat ds : Int)), r) else none
      else if c.isDigit then
        match takeDigits (c :: rest) with
        | (ds, r) =>
          if digitsWellFormed ds then some (.num (digitsToNat ds : Int), r) else none
      else none

/-- Comma-separated array elements up to the closing bracket. -/
def parseElems : Nat → List Char → Option (List Json × List Char)
  | 0, _ => none
  | fuel + 1, cs =>
    match parseJsonVal fuel cs with
    | none => none
    | some (j, rest) =>
      match skipWs rest with
      | ',' :: r =>
        match parseElems fuel r with
        | some (es, r2) => some (j :: es, r2)
        | none => none
      | ']' :: r => some ([j], r)
      | _ => none

/-- Comma-separated object members up to the closing brace. -/
def parseFields : Nat → List Char → Option (List (String × Json) × List Char)
  | 0, _ => none
  | fuel + 1, cs =>
    match skipWs cs with
    | '"' :: r =>
      match parseStringBody (fuel + 1) r "" with
      | none => none
      | some (k, r2) =>
        match skipWs r2 with
        | ':' :: r3 =>
          match parseJsonVal fuel r3 with
          | none => none
          | some (v, r4) =>
            match skipWs r4 with
            | ',' :: r5 =>
              match parseFields fuel r5 with
              | some (fs, r6) => some ((k, v) :: fs, r6)
              | none => none
            | '}' :: r5 => some ([(k, v)], r5)
            | _ => none
        | _ => none
    | _ => none

end

/-- Model of `parseExperimentalJsonEvent`: `JSON.parse` wrapped in
`try`/`catch`, returning `undefined` (`none`) on any malformed line.  The
parse must consume the whole line up to trailing whitespace. -/
def parseExperimentalJsonEvent (line : String) : Option Json :=
  match parseJsonVal (2 * line.length + 2) line.data with
  | some (j, rest) => if (skipWs rest).isEmpty then some j else none
  | none => none

/-! Serialization, modelling `JSON.stringify` on parsed-JSON values. -/

/-- Lower-case hexadecimal digit. -/
def hexDigit (n : Nat) : String :=
  String.singleton (if n < 10 then Char.ofNat ('0'.toNat + n) else Char.ofNat ('a'.toNat + n - 10))

/-- Escape of one character inside a JSON string literal. -/
def jsonEscapeChar (c : Char) : String :=
  if c = '"' then "\\\""
  else if c = '\\' then "\\\\"
  else if c = '\n' then "\\n"
  else if c = '\r' then "\\r"
  else if c = '\t' then "\\t"
  else if c.toNat = 8 then "\\b"
  else if c.toNat = 12 then "\\f"
  else if c.toNat < 32 then "\\u00" ++ hexDigit (c.toNat / 16) ++ hexDigit (c.toNat % 16)
  else String.singleton c

/-- Quoted, escaped JSON string literal, as `JSON.stringify` produces. -/
def jsonQuote (s : String) : String :=
  "\"" ++ s.data.foldl (fun acc c => acc ++ jsonEscapeChar c) "" ++ "\""

mutual

/-- Model of `JSON.stringify` on a JSON value (compact form, no spacing). -/
def jsonStringify : Json → String
  | .null => "null"
  | .bool b => if b then "true" else "false"
  | .num n => toString n
  | .str s => jsonQuote s
  | .arr es => "[" ++ stringifyElems es ++ "]"
  | .obj fs => "\x7b" ++ stringifyFields fs ++ "\x7d"

/-- Elements of an array, comma separated. -/
def stringifyElems : List Json → String
  | [] => ""
  | [j] => jsonStringify j
  | j :: rest => jsonStringify j ++ "," ++ stringifyElems rest

/-- Members of an object, comma separated. -/
def stringifyFields : List (String × Json) → String
  | [] => ""
  | [(k, v)] => jsonQuote k ++ ":" ++ jsonStringify v
  | (k, v) :: rest => jsonQuote k ++ ":" ++ jsonStringify v ++ "," ++ stringifyFields rest

end

/-! Usage extraction and item helpers of `CodexCliLanguageModel`. -/

/-- Token usage as reported to the SDK (`LanguageModelV2Usage`). -/
structure Usage where
  inputTokens : Int
  outputTokens : Int
  totalTokens : Int
  cachedInputTokens : Int
deriving Repr, DecidableEq

/-- Reading `reported.field ?? 0` where the protocol field is a number:
a missing or `null` field defaults to zero. -/
def nullishInt (u : Json) (k : String) : Int :=
  match jField u k with
  | some (.num n) => n
  | _ => 0

/-- Model of `extractUsage`: `undefined` unless the event carries a truthy
`usage` value; the total is input plus output, cached input tokens are
carried separately. -/
def extractUsage (evt : Json) : Option Usage :=
  match jField evt "usage" with
  | none => none
  | some reported =>
    if jsTruthy reported then
      some
        { inputTokens := nullishInt reported "input_tokens"
          outputTokens := nullishInt reported "output_tokens"
          totalTokens := nullishInt reported "input_tokens" + nullishInt reported "output_tokens"
          cachedInputTokens := nullishInt reported "cached_input_tokens" }
    else none

/-- Model of `getItemType`: the legacy `item_type` string wins over the
current `type` string; non-objects and falsy items have no item type. -/
def getItemType (item : Json) : Option String :=
  match jStrField item "item_type" with
  | some legacy => some legacy
  | none => jStrField item "type"

/-- Model of `getToolName`: the tool name derived from the item kind. -/
def getToolName (item : Json) : Option String :=
  match getItemType item with
  | some t =>
    if t = "command_execution" then some "exec"
    else if t = "file_change" then some "patch"
    else if t = "mcp_tool_call" then
      match jStrField item "tool" with
      | some tool => if tool.isEmpty then some "mcp_tool" else some tool
      | none => some "mcp_tool"
    else if t = "web_search" then some "web_search"
    else none
  | none => none

/-- Collect the fields of an input/result payload, keeping only the
present entries, in insertion order. -/
def collectFields (fields : List (String × Option Json)) : List (String × Json) :=
  fields.foldr (fun kv acc => match kv.2 with | some v => (kv.1, v) :: acc | none => acc) []

/-- Model of `buildToolInputPayload`: the kind-specific input summary, or
`undefined` when no relevant field is present. -/
def buildToolInputPayload (item : Json) : Option Json :=
  let payload : List (String × Json) :=
    match getItemType item with
    | some "command_execution" =>
      collectFields
        [("command", (jStrField item "command").map Json.str),
         ("status", (jStrField item "status").map Json.str),
         ("cwd", (jStrField item "cwd").map Json.str)]
    | some "file_change" =>
      collectFields
        [("changes", match jField item "changes" with
            | some (.arr es) => some (.arr es)
            | _ => none),
         ("status", (jStrField item "status").map Json.str)]
    | some "mcp_tool_call" =>
      collectFields
        [("server", (jStrField item "server").map Json.str),
         ("tool", (jStrField item "tool").map Json.str),
         ("status", (jStrField item "status").map Json.str),
         ("arguments", jField item "arguments")]
    | some "web_search" =>
      collectFields [("query", (jStrField item "query").map Json.str)]
    | _ => []
  if payload.isEmpty then none else some (.obj payload)

/-- Collect present string-valued metadata entries, in insertion order. -/
def collectStrFields (fields : List (String × Option String)) : List (String × String) :=
  fields.foldr (fun kv acc => match kv.2 with | some v => (kv.1, v) :: acc | none => acc) []

/-- Model of `buildToolResultPayload`: the kind-specific result object and
the provider-metadata entries (`itemType`, `itemId`, `status`, plus the
MCP server).  The metadata is `none` when it would be empty. -/
def buildToolResultPayload (item : Json) : Json × Option (List (String × String)) :=
  let itemType := getItemType item
  let baseMeta : List (String × String) :=
    collectStrFields
      [("itemType", itemType),
       ("itemId", jStrField item "id"),
       ("status", jStrField item "status")]
  let result : List (String × Json) :=
    match itemType with
    | some "command_execution" =>
      collectFields
        [("command", (jStrField item "command").map Json.str),
         ("aggregatedOutput", (jStrField item "aggregated_output").map Json.str),
         ("exitCode", (jIntField item "exit_code").map Json.num),
         ("status", (jStrField item "status").map Json.str)]
    | some "file_change" =>
      collectFields
        [("changes", match jField item "changes" with
            | some (.arr es) => some (.arr es)
            | _ => none),
         ("status", (jStrField item "status").map Json.str)]
    | some "mcp_tool_call" =>
      collectFields
        [("server", (jStrField item "server").map Json.str),
         ("tool", (jStrField item "tool").map Json.str),
         ("status", (jStrField item "status").map Json.str),
         ("result", jField item "result"),
         ("error", jField item "error")]
    | some "web_search" =>
      collectFields
        [("query", (jStrField item "query").map Json.str),
         ("status", (jStrField item "status").map Json.str)]
    | _ =>
      match item with
      | .obj fs => fs
      | _ => []
  let metadata :=
    match itemType with
    | some "mcp_tool_call" =>
      baseMeta ++ (match jStrField item "server" with
        | some server => [("server", server)]
        | none => [])
    | _ => baseMeta
  (.obj result, if metadata.isEmpty then none else some metadata)

/-- Model of `safeStringify`: `undefined` becomes the empty string, strings
pass through, everything else is `JSON.stringify`ed. -/
def safeStringify : Option Json → String
  | none => ""
  | some (.str s) => s
  | some j => jsonStringify j

/-! State machine of `doGenerate`'s stdout handler (lines 697-749 of the
source): one mutable record updated per parsed event, then inspected by the
`close` handler. -/

/-- Local usage record of `doGenerate` (`inputTokens`, `outputTokens`,
`totalTokens`, initialized to zero; no cached field is kept here). -/
structure GenUsage where
  inputTokens : Int
  outputTokens : Int
  totalTokens : Int
deriving Repr, DecidableEq

/-- Mutable state of one non-streaming request while stdout is consumed. -/
structure GenState where
  sessionId : Option String := none
  text : String := ""
  usage : GenUsage := { inputTokens := 0, outputTokens := 0, totalTokens := 0 }
  turnFailureMessage : Option String := none
deriving Repr, DecidableEq

/-- Failure text of a `turn.failed` event:
`(event.error && typeof event.error.message === 'string' && event.error.message) ||
 (typeof event.message === 'string' ? event.message : undefined)`.
Note the `||`: an empty `error.message` string is falsy and falls through
to `event.message`. -/
def turnFailedErrorText (event : Json) : Option String :=
  let lhs : Option String :=
    match jField event "error" with
    | some err =>
      if jsTruthy err then
        match jStrField err "message" with
        | some m => if m.isEmpty then none else some m
        | none => none
      else none
    | none => none
  match lhs with
  | some m => some m
  | none => jStrField event "message"

/-- JavaScript `a ?? b` on optional strings (empty strings pass through). -/
def nullish (a b : Option String) : Option String :=
  match a with
  | some m => some m
  | none => b

/-- Transition of `doGenerate`'s stdout handler on one parsed, truthy
event.  The guards mirror the `if` chain of the source one for one. -/
def genStep (st : GenState) (event : Json) : GenState :=
  let ty := jStrField event "type"
  let st :=
    if ty = some "thread.started" ∧ (jStrField event "thread_id").isSome then
      { st with sessionId := jStrField event "thread_id" }
    else st
  let st :=
    if ty = some "session.created" ∧ (jStrField event "session_id").isSome then
      { st with sessionId := jStrField event "session_id" }
    else st
  let st :=
    if ty = some "turn.completed" then
      match extractUsage event with
      | some u =>
        { st with usage := { inputTokens := u.inputTokens, outputTokens := u.outputTokens,
                             totalTokens := u.totalTokens } }
      | none => st
    else st
  let st :=
    if ty = some "item.completed" ∧
        (jField event "item").bind getItemType = some "assistant_message" ∧
        ((jField event "item").bind (fun it => jStrField it "text")).isSome then
      { st with text := ((jField event "item").bind (fun it => jStrField it "text")).getD "" }
    else st
  let st :=
    if ty = some "turn.failed" then
      { st with turnFailureMessage :=
          nullish (turnFailedErrorText event) (nullish st.turnFailureMessage (some "Codex turn failed")) }
    else st
  let st :=
    if ty = some "error" then
      { st with turnFailureMessage :=
          nullish (jStrField event "message") (nullish st.turnFailureMessage (some "Codex error")) }
    else st
  st

/-- Processing one stdout line: unparseable lines and falsy parses are
skipped (`if (!event) continue`), others feed `genStep`. -/
def genLineStep (st : GenState) (line : String) : GenState :=
  match parseExperimentalJsonEvent line with
  | none => st
  | some event => if jsTruthy event then genStep st event else st

/-- Processing a whole stdout line sequence of a non-streaming request. -/
def genProcess (lines : List String) : GenState :=
  lines.foldl genLineStep {}

/-- JavaScript truthiness of the pending failure message: `undefined` and
the empty string are both falsy in `if (turnFailureMessage)`. -/
def tfmTruthy : Option String → Bool
  | none => false
  | some m => !m.isEmpty

/-- Whitespace characters removed by JavaScript's `String.prototype.trim`
(restricted to the ASCII whitespace actually occurring in sidecar files). -/
def isJsWs (c : Char) : Bool :=
  c = ' ' || c = '\t' || c = '\n' || c = '\r' || c.toNat = 11 || c.toNat = 12

/-- Model of `fileText.trim()`: strip leading and trailing whitespace. -/
def jsTrim (s : String) : String :=
  String.mk (((s.data.dropWhile isJsWs).reverse.dropWhile isJsWs).reverse)

/-- Final text reconciliation (`doGenerate` lines 799-811 and
`finishStream` lines 999-1008 share this structure): when the accumulated
text is empty, the sidecar file is read and a truthy (non-empty) content is
trimmed into the final text.  `sidecar = none` models a failing read. -/
def reconcileFinalText (accumulated : String) (sidecar : Option String) : String :=
  if accumulated.isEmpty then
    match sidecar with
    | some fileText => if fileText.isEmpty then accumulated else jsTrim fileText
    | none => accumulated
  else accumulated

/-- Outcome of a non-streaming request. -/
inductive RunOutcome where
  | ok (text : String) (usage : GenUsage) (sessionId : Option String) : RunOutcome
  | apiError (message : String) : RunOutcome
deriving Repr, DecidableEq

/-- Model of `doGenerate`'s `close` handler plus the sidecar fallback: with
exit code 0 a truthy pending failure message still rejects with an API-call
error; a nonzero exit code always rejects; otherwise the request resolves
with the reconciled text. -/
def genConclusion (lines : List String) (code : Int) (sidecar : Option String) : RunOutcome :=
  let st := genProcess lines
  if code = 0 then
    if tfmTruthy st.turnFailureMessage then
      .apiError (st.turnFailureMessage.getD "")
    else
      .ok (reconcileFinalText st.text sidecar) st.usage st.sessionId
  else
    .apiError ("Codex CLI exited with code " ++ toString code)

/-- Content parts of the non-streaming result. -/
inductive ContentPart where
  | text (t : String) : ContentPart
deriving Repr, DecidableEq

/-- Model of the `content` array built by `doGenerate` on success: always a
single text part, even when the text is empty. -/
def genContent (lines : List String) (sidecar : Option String) : List ContentPart :=
  [.text (reconcileFinalText (genProcess lines).text sidecar)]

/-! Streaming path (`doStream`): the parts enqueued on the channel are
reified as a list, `randomUUID` as a deterministic fresh-name counter. -/

/-- Stream parts enqueued on the readable stream.  `responseMetadata`
records only the provider-metadata entries (the random id and timestamp of
the source are not modelled); `toolResult` records the payload, error flag
and provider-metadata entries. -/
inductive StreamPart where
  | streamStart : StreamPart
  | responseMetadata (meta : List (String × String)) : StreamPart
  | toolInputStart (id toolName : String) : StreamPart
  | toolInputDelta (id delta : String) : StreamPart
  | toolInputEnd (id : String) : StreamPart
  | toolCall (toolCallId toolName input : String) (providerExecuted : Bool) : StreamPart
  | toolResult (toolCallId toolName : String) (result : Json) (isError : Bool)
      (meta : List (String × String)) : StreamPart
  | textStart (id : String) : StreamPart
  | textDelta (id text : String) : StreamPart
  | textEnd (id : String) : StreamPart
  | finish (usage : Usage) : StreamPart
deriving Repr

/-- Tracked state of one in-flight tool item (`ActiveToolItem`). -/
structure ActiveToolItem where
  toolCallId : String
  toolName : String
  inputPayload : Option Json
  hasEmittedCall : Bool
deriving Repr

/-- Mutable state of one streaming request while stdout is consumed.
`fresh` is the deterministic stand-in for `randomUUID`. -/
structure StreamState where
  sessionId : Option String := none
  accumulatedText : String := ""
  activeTools : List (String × ActiveToolItem) := []
  responseMetadataSent : Bool := false
  lastUsage : Option Usage := none
  turnFailureMessage : Option String := none
  fresh : Nat := 0
deriving Repr

/-- Lookup in the `activeTools` map. -/
def toolsGet (m : List (String × ActiveToolItem)) (k : String) : Option ActiveToolItem :=
  (m.find? (fun kv => kv.1 == k)).map (fun kv => kv.2)

/-- `Map.set`: replace the entry in place, or append a new one. -/
def toolsSet (m : List (String × ActiveToolItem)) (k : String) (v : ActiveToolItem) :
    List (String × ActiveToolItem) :=
  match m with
  | [] => [(k, v)]
  | kv :: rest => if kv.1 == k then (k, v) :: rest else kv :: toolsSet rest k v

/-- `Map.delete`: drop the entry with the given key. -/
def toolsDelete (m : List (String × ActiveToolItem)) (k : String) :
    List (String × ActiveToolItem) :=
  match m with
  | [] => []
  | kv :: rest => if kv.1 == k then rest else kv :: toolsDelete rest k

/-- Model of `emitToolInvocation`: the input-start/delta/end sequence plus
the tool-call part with `providerExecuted = true`; the delta is skipped
when the serialized input is empty. -/
def emitToolInvocation (toolCallId toolName : String) (inputPayload : Option Json) :
    List StreamPart :=
  let inputString := safeStringify inputPayload
  [.toolInputStart toolCallId toolName] ++
    (if inputString.isEmpty then [] else [.toolInputDelta toolCallId inputString]) ++
    [.toolInputEnd toolCallId,
     .toolCall toolCallId toolName inputString true]

/-- Model of `emitToolResult`: merge the metadata with the defaulted
`itemType`/`itemId` entries, compute the command-execution error flag, and
emit the tool-result part. -/
def emitToolResult (toolCallId toolName : String) (item : Json) (resultPayload : Json)
    (metadata : Option (List (String × String))) : List StreamPart :=
  let entries := metadata.getD []
  let itemType := getItemType item
  let entries :=
    match itemType with
    | some t => if (entries.find? (fun kv => kv.1 == "itemType")).isNone
        then entries ++ [("itemType", t)] else entries
    | none => entries
  let entries :=
    match jStrField item "id" with
    | some id =>
      if ¬id.isEmpty ∧ (entries.find? (fun kv => kv.1 == "itemId")).isNone
        then entries ++ [("itemId", id)] else entries
    | none => entries
  let isError : Bool :=
    if itemType = some "command_execution" then
      (match jIntField item "exit_code" with
       | some code => code != 0
       | none => false) || jStrField item "status" == some "failed"
    else false
  [.toolResult toolCallId toolName resultPayload isError entries]

/-- Map key of a tool item: its identifier when it is a non-empty string,
else a synthesized fresh identifier (the `randomUUID()` stand-in), together
with the updated fresh counter. -/
def toolMapKey (st : StreamState) (item : Json) : String × StreamState :=
  match jStrField item "id" with
  | some id =>
    if id.isEmpty then ("uuid-" ++ toString st.fresh, { st with fresh := st.fresh + 1 })
    else (id, st)
  | none => ("uuid-" ++ toString st.fresh, { st with fresh := st.fresh + 1 })

/-- Tracked state after this sighting: registration on first sight,
tool-name refresh plus conditional input refresh afterwards. -/
def nextToolState (st : StreamState) (mapKey toolName : String) (item : Json) :
    ActiveToolItem :=
  let latestInput := buildToolInputPayload item
  match toolsGet st.activeTools mapKey with
  | none =>
    { toolCallId := mapKey, toolName := toolName, inputPayload := latestInput,
      hasEmittedCall := false }
  | some existing =>
    let newInput := match latestInput with
      | some v => some v
      | none => existing.inputPayload
    { existing with toolName := toolName, inputPayload := newInput }

/-- Tool branch of `handleItemEvent`: register or refresh the tracked
state, emit the call sequence on first sight, and on completion emit the
result and drop the entry. -/
def handleToolItem (st : StreamState) (event item : Json) (toolName : String) :
    StreamState × List StreamPart :=
  let (mapKey, st) := toolMapKey st item
  let toolState := nextToolState st mapKey toolName item
  let callParts :=
    if toolState.hasEmittedCall then []
    else emitToolInvocation toolState.toolCallId toolState.toolName toolState.inputPayload
  let toolState := { toolState with hasEmittedCall := true }
  let st := { st with activeTools := toolsSet st.activeTools mapKey toolState }
  if jStrField event "type" = some "item.completed" then
    let (result, metadata) := buildToolResultPayload item
    let resParts := emitToolResult toolState.toolCallId toolState.toolName item result metadata
    ({ st with activeTools := toolsDelete st.activeTools mapKey }, callParts ++ resParts)
  else
    (st, callParts)

/-- Model of `handleItemEvent`: text accumulation for completed assistant
messages, and the tool lifecycle tracker for recognized tool kinds.
Returns the updated state and the parts enqueued for this event. -/
def handleItemEvent (st : StreamState) (event : Json) : StreamState × List StreamPart :=
  match jField event "item" with
  | none => (st, [])
  | some item =>
    if ¬jsTruthy item then (st, []) else
    if jStrField event "type" = some "item.completed" ∧
        getItemType item = some "assistant_message" ∧
        (jStrField item "text").isSome then
      ({ st with accumulatedText := (jStrField item "text").getD "" }, [])
    else
      match getToolName item with
      | none => (st, [])
      | some toolName => handleToolItem st event item toolName

/-- Model of `sendMetadata`: the response-metadata part carrying the given
provider-metadata entries. -/
def sendMetadata (meta : List (String × String)) : StreamPart :=
  .responseMetadata meta

/-- Transition of `doStream`'s stdout handler on one parsed, truthy event
(lines 1043-1093 of the source): each branch of the `if`/`continue` chain
becomes one alternative. -/
def streamStep (st : StreamState) (event : Json) : StreamState × List StreamPart :=
  let ty := jStrField event "type"
  if ty = some "thread.started" ∧ (jStrField event "thread_id").isSome then
    let st := { st with sessionId := jStrField event "thread_id" }
    if ¬st.responseMetadataSent then
      ({ st with responseMetadataSent := true }, [sendMetadata []])
    else (st, [])
  else if ty = some "session.created" ∧ (jStrField event "session_id").isSome then
    let st := { st with sessionId := jStrField event "session_id" }
    if ¬st.responseMetadataSent then
      ({ st with responseMetadataSent := true }, [sendMetadata []])
    else (st, [])
  else if ty = some "turn.completed" then
    match extractUsage event with
    | some u => ({ st with lastUsage := some u }, [])
    | none => (st, [])
  else if ty = some "turn.failed" then
    let msg := nullish (turnFailedErrorText event) (nullish st.turnFailureMessage (some "Codex turn failed"))
    ({ st with turnFailureMessage := msg }, [sendMetadata [("error", msg.getD "")]])
  else if ty = some "error" then
    let effective := (jStrField event "message").getD "Codex error"
    ({ st with turnFailureMessage := nullish st.turnFailureMessage (some effective) },
     [sendMetadata [("error", effective)]])
  else
    match ty with
    | some t => if strStarts "item." t then handleItemEvent st event else (st, [])
    | none => (st, [])

/-- Processing one stdout line of the streaming request. -/
def streamLineStep (st : StreamState) (line : String) : StreamState × List StreamPart :=
  match parseExperimentalJsonEvent line with
  | none => (st, [])
  | some event => if jsTruthy event then streamStep st event else (st, [])

/-- Folding `streamStep` over a list of already-parsed events, collecting
the enqueued parts in order. -/
def streamSteps (st : StreamState) : List Json → StreamState × List StreamPart
  | [] => (st, [])
  | e :: es =>
    let (st1, ps) := streamStep st e
    let (st2, rest) := streamSteps st1 es
    (st2, ps ++ rest)

/-- Folding `streamLineStep` over the stdout lines of one request. -/
def streamRun (st : StreamState) : List String → StreamState × List StreamPart
  | [] => (st, [])
  | l :: ls =>
    let (st1, ps) := streamLineStep st l
    let (st2, rest) := streamRun st1 ls
    (st2, ps ++ rest)

/-- Model of `finishStream` (lines 970-1031 of the source): a nonzero exit
code errors the channel; then a truthy pending failure message errors it;
otherwise the reconciled final text is emitted as one synthetic
start/delta/end burst (skipped entirely when empty), followed by the finish
part carrying the cached usage (zeroed when none was seen). -/
def finishStream (st : StreamState) (code : Int) (sidecar : Option String) :
    Except String (List StreamPart) :=
  if code ≠ 0 then .error ("Codex CLI exited with code " ++ toString code)
  else if tfmTruthy st.turnFailureMessage then .error (st.turnFailureMessage.getD "")
  else
    let finalText := reconcileFinalText st.accumulatedText sidecar
    let textId := "uuid-" ++ toString st.fresh
    let textParts :=
      if finalText.isEmpty then []
      else [.textStart textId, .textDelta textId finalText, .textEnd textId]
    .ok (textParts ++
      [.finish (st.lastUsage.getD
        { inputTokens := 0, outputTokens := 0, totalTokens := 0, cachedInputTokens := 0 })])

/-- Whole streaming run: the stream-start part, the per-event parts, and
either the finish burst or a channel error. -/
def streamConclusion (lines : List String) (code : Int) (sidecar : Option String) :
    Except String (List StreamPart) :=
  match finishStream (streamRun {} lines).1 code sidecar with
  | .ok tailParts => .ok ([.streamStart] ++ (streamRun {} lines).2 ++ tailParts)
  | .error e => .error e

/-! Abort handling around the spawn point.  In both `doGenerate` (lines
682-693) and `doStream` (lines 869 and 961-968) the subprocess is spawned
first and only then is the abort signal consulted: an already-aborted
signal kills the fresh child with SIGTERM and fails with the signal's
reason (or a generic `Request aborted` error). -/

/-- Observable effects of the spawn/abort-check prologue. -/
structure SpawnPhase where
  spawned : Bool
  killedBeforeRun : Bool
  earlyFailure : Option String
deriving Repr, DecidableEq

/-- Model of `doGenerate`'s prologue: `spawn` runs unconditionally, then an
already-aborted signal kills the child and throws. -/
def genAbortPhase (hasSignal aborted : Bool) (reason : Option String) : SpawnPhase :=
  { spawned := true
    killedBeforeRun := hasSignal && aborted
    earlyFailure := if hasSignal && aborted then some (reason.getD "Request aborted") else none }

/-- Model of `doStream`'s prologue inside `start`: identical shape, the
failure surfacing as `controller.error` instead of a thrown exception. -/
def streamAbortPhase (hasSignal aborted : Bool) (reason : Option String) : SpawnPhase :=
  { spawned := true
    killedBeforeRun := hasSignal && aborted
    earlyFailure := if hasSignal && aborted then some (reason.getD "Request aborted") else none }

/-! Argument builder (`buildArgs` and its helpers).  The generic config
override values (`string | number | boolean | object`) are represented as
`Json` values: an `obj` is exactly what `isPlainObject` accepts, an `arr`
what `Array.isArray` accepts; validated settings never carry exotic
class instances. -/

/-- Model of `serializeConfigValue`: strings raw, numbers and booleans via
`String(value)`, arrays and residual objects via `JSON.stringify`, `null`
via `String(null)`. -/
def serializeConfigValue : Json → String
  | .str s => s
  | .num n => toString n
  | .bool b => if b then "true" else "false"
  | .null => "null"
  | .arr es => jsonStringify (.arr es)
  | .obj fs => jsonStringify (.obj fs)

mutual

/-- Model of `addConfigOverride`: plain objects are flattened recursively
into dotted keys (an empty object therefore contributes nothing); every
other value is serialized and pushed as a `-c key=value` pair. -/
def addConfigOverride (args : List String) (key : String) : Json → List String
  | .obj fields => addConfigOverrideFields args key fields
  | v => args ++ ["-c", key ++ "=" ++ serializeConfigValue v]

/-- Recursion of `addConfigOverride` over the entries of a plain object. -/
def addConfigOverrideFields (args : List String) (key : String) :
    List (String × Json) → List String
  | [] => args
  | (k, v) :: rest => addConfigOverrideFields (addConfigOverride args (key ++ "." ++ k) v) key rest

end

/-- The `for (const [key, value] of Object.entries(settings.configOverrides))`
loop of `buildArgs`. -/
def addConfigOverrideEntries (args : List String) : List (String × Json) → List String
  | [] => args
  | (k, v) :: rest => addConfigOverrideEntries (addConfigOverride args k v) rest

/-- Keys removed by `sanitizeJsonSchema` (unsupported by strict mode). -/
def sanitizeRemovedKeys : List String :=
  ["$schema", "$id", "$ref", "$defs", "definitions", "title", "examples",
   "default", "format", "pattern"]

mutual

/-- Model of `sanitizeJsonSchema`: drop unsupported metadata keys
recursively while preserving the property names under `properties`. -/
def sanitizeJsonSchema : Json → Json
  | .arr es => .arr (sanitizeElems es)
  | .obj fs => .obj (sanitizeFields fs)
  | j => j

/-- Elementwise sanitization of a schema array. -/
def sanitizeElems : List Json → List Json
  | [] => []
  | j :: rest => sanitizeJsonSchema j :: sanitizeElems rest

/-- Memberwise sanitization of a schema object. -/
def sanitizeFields : List (String × Json) → List (String × Json)
  | [] => []
  | (k, v) :: rest =>
    if k = "properties" && (match v with | .obj _ => true | _ => false) then
      (k, sanitizeProps v) :: sanitizeFields rest
    else if k ∈ sanitizeRemovedKeys then sanitizeFields rest
    else (k, sanitizeJsonSchema v) :: sanitizeFields rest

/-- Sanitization of the schemas under `properties`, keeping each name. -/
def sanitizeProps : Json → Json
  | .obj props => .obj (sanitizePropsFields props)
  | j => j

/-- Per-property recursion of `sanitizeProps`. -/
def sanitizePropsFields : List (String × Json) → List (String × Json)
  | [] => []
  | (k, v) :: rest => (k, sanitizeJsonSchema v) :: sanitizePropsFields rest

end

/-- Number of own keys (`Object.keys(x).length`) of a sanitized schema. -/
def numKeys : Json → Nat
  | .obj fs => fs.length
  | .arr es => es.length
  | _ => 0

/-- Settings record (`CodexCliSettings`), restricted to the fields read by
`buildArgs`; enum-valued fields are carried as strings (they are validated
upstream by the zod schema). -/
structure CodexCliSettings where
  codexPath : Option String := none
  approvalMode : Option String := none
  sandboxMode : Option String := none
  fullAuto : Option Bool := none
  dangerouslyBypassApprovalsAndSandbox : Option Bool := none
  skipGitRepoCheck : Option Bool := none
  color : Option String := none
  outputLastMessageFile : Option String := none
  reasoningEffort : Option String := none
  reasoningSummary : Option String := none
  reasoningSummaryFormat : Option String := none
  modelVerbosity : Option String := none
  includePlanTool : Option Bool := none
  profile : Option String := none
  oss : Option Bool := none
  webSearch : Option Bool := none
  configOverrides : Option (List (String × Json)) := none
deriving Repr

/-- Arguments contributed by an optional string setting when it is truthy
(present and non-empty, the JavaScript `if (settings.x)` test). -/
def optStrArgs (v : Option String) (f : String → List String) : List String :=
  match v with
  | some s => if s.isEmpty then [] else f s
  | none => []

/-- Autonomy tier of `buildArgs`: `--full-auto`, else the bypass flag, else
the two explicit approval/sandbox overrides with their defaults. -/
def autonomyArgs (s : CodexCliSettings) : List String :=
  if s.fullAuto = some true then ["--full-auto"]
  else if s.dangerouslyBypassApprovalsAndSandbox = some true then
    ["--dangerously-bypass-approvals-and-sandbox"]
  else
    ["-c", "approval_policy=" ++ s.approvalMode.getD "on-failure",
     "-c", "sandbox_mode=" ++ s.sandboxMode.getD "workspace-write"]

/-- Git-repo-check skip flag (enabled unless explicitly disabled). -/
def skipGitArgs (s : CodexCliSettings) : List String :=
  if s.skipGitRepoCheck ≠ some false then ["--skip-git-repo-check"] else []

/-- Reasoning and verbosity overrides of `buildArgs`. -/
def reasoningArgs (s : CodexCliSettings) : List String :=
  optStrArgs s.reasoningEffort (fun v => ["-c", "model_reasoning_effort=" ++ v]) ++
  optStrArgs s.reasoningSummary (fun v => ["-c", "model_reasoning_summary=" ++ v]) ++
  optStrArgs s.reasoningSummaryFormat
    (fun v => ["-c", "model_reasoning_summary_format=" ++ v]) ++
  optStrArgs s.modelVerbosity (fun v => ["-c", "model_verbosity=" ++ v])

/-- Feature flags of `buildArgs` (plan tool, profile, OSS, web search). -/
def featureArgs (s : CodexCliSettings) : List String :=
  (if s.includePlanTool = some true then ["--include-plan-tool"] else []) ++
  optStrArgs s.profile (fun v => ["--profile", v]) ++
  (if s.oss = some true then ["--oss"] else []) ++
  (if s.webSearch = some true then ["-c", "tools.web_search=true"] else [])

/-- Color flag of `buildArgs`. -/
def colorArgs (s : CodexCliSettings) : List String :=
  optStrArgs s.color (fun v => ["--color", v])

/-- Model flag of `buildArgs` (`if (this.modelId)`). -/
def modelArgs (modelId : String) : List String :=
  if modelId.isEmpty then [] else ["-m", modelId]

/-- Arguments contributed by the generic config-override map. -/
def configArgs (s : CodexCliSettings) : List String :=
  match s.configOverrides with
  | some overrides => addConfigOverrideEntries [] overrides
  | none => []

/-- The `typeof responseFormat.schema === 'object' ? schema : \x7b\x7d` step:
non-objects are replaced by an empty object before sanitization. -/
def objSchemaOf : Json → Json
  | .obj fs => .obj fs
  | .arr es => .arr es
  | _ => .obj []

/-- Path of the written schema file, when a JSON response format carries a
truthy schema whose sanitization retains at least one key.  The
`mkdtempSync`-generated location is the `schemaTmpPath` parameter. -/
def schemaFilePath (responseFormat : Option Json) (schemaTmpPath : String) : Option String :=
  match responseFormat with
  | some schema =>
    if jsTruthy schema then
      if 0 < numKeys (sanitizeJsonSchema (objSchemaOf schema)) then some schemaTmpPath
      else none
    else none
  | none => none

/-- Schema flag of `buildArgs`. -/
def schemaArgs (responseFormat : Option Json) (schemaTmpPath : String) : List String :=
  match schemaFilePath responseFormat schemaTmpPath with
  | some p => ["--output-schema", p]
  | none => []

/-- Sidecar path: the user-supplied file if truthy, else the temp path. -/
def lastMessagePathOf (s : CodexCliSettings) (tmpSidecarPath : String) : String :=
  match s.outputLastMessageFile with
  | some p => if p.isEmpty then tmpSidecarPath else p
  | none => tmpSidecarPath

/-- Model of `buildArgs` (lines 161-278 of the source), restricted to the
argument list and the two auxiliary paths.  The successive `args.push`
calls of the source are grouped into named segments, concatenated here in
push order.  `base` stands for the arguments of `resolveCodexPath` (whose
module resolution is environment-dependent), `schemaTmpPath` and
`tmpSidecarPath` for the `mkdtempSync`-generated file paths, and
`responseFormat` for the schema value when a JSON response format was
requested. -/
def buildArgs (base : List String) (modelId promptText : String)
    (responseFormat : Option Json) (schemaTmpPath tmpSidecarPath : String)
    (s : CodexCliSettings) : List String × String × Option String :=
  (base ++ ["exec", "--experimental-json"] ++
     autonomyArgs s ++ skipGitArgs s ++ reasoningArgs s ++ featureArgs s ++
     colorArgs s ++ modelArgs modelId ++ configArgs s ++
     schemaArgs responseFormat schemaTmpPath ++ [promptText] ++
     ["--output-last-message", lastMessagePathOf s tmpSidecarPath],
   lastMessagePathOf s tmpSidecarPath,
   schemaFilePath responseFormat schemaTmpPath)

/-! Supporting lemmas. -/

theorem strStarts_append (p q v : String) (h : p.data.length ≤ q.data.length) :
    strStarts p (q ++ v) = strStarts p q := by
  unfold strStarts
  rw [String.data_append, List.take_append_of_le_length h]

theorem strStarts_self_append (q v : String) : strStarts q (q ++ v) = true := by
  unfold strStarts
  rw [String.data_append, List.take_left]
  exact beq_self_eq_true q.data

theorem append_ne_of_not_strStarts (q v w : String) (h : strStarts q w = false) :
    q ++ v ≠ w := by
  intro he
  rw [← he, strStarts_self_append] at h
  exact Bool.true_eq_false ▸ h

mutual

theorem addConfigOverride_append (args : List String) (key : String) (v : Json) :
    addConfigOverride args key v = args ++ addConfigOverride [] key v := by
  cases v with
  | obj fields =>
    rw [addConfigOverride, addConfigOverride]
    exact addConfigOverrideFields_append args key fields
  | null => simp [addConfigOverride]
  | bool b => simp [addConfigOverride]
  | num n => simp [addConfigOverride]
  | str s => simp [addConfigOverride]
  | arr es => simp [addConfigOverride]

theorem addConfigOverrideFields_append (args : List String) (key : String)
    (fs : List (String × Json)) :
    addConfigOverrideFields args key fs = args ++ addConfigOverrideFields [] key fs := by
  cases fs with
  | nil => simp [addConfigOverrideFields]
  | cons kv rest =>
    rw [addConfigOverrideFields, addConfigOverrideFields]
    rw [addConfigOverrideFields_append (addConfigOverride args (key ++ "." ++ kv.1) kv.2) key rest]
    rw [addConfigOverrideFields_append (addConfigOverride [] (key ++ "." ++ kv.1) kv.2) key rest]
    rw [addConfigOverride_append args (key ++ "." ++ kv.1) kv.2]
    simp

end

theorem addConfigOverrideEntries_append (args : List String) (ov : List (String × Json)) :
    addConfigOverrideEntries args ov = args ++ addConfigOverrideEntries [] ov := by
  induction ov generalizing args with
  | nil => simp [addConfigOverrideEntries]
  | cons kv rest ih =>
    rw [addConfigOverrideEntries, addConfigOverrideEntries]
    rw [ih (addConfigOverride args kv.1 kv.2), ih (addConfigOverride [] kv.1 kv.2)]
    rw [addConfigOverride_append args kv.1 kv.2]
    simp

/-! Claim C5: usage extraction never double-counts cached tokens. -/

/-- C5: for every turn-completed event carrying token counts, the extracted
usage satisfies totalTokens = input_tokens + output_tokens exactly; the
cached input tokens live in their own field of the extracted `Usage` and
are never added into the total. -/
theorem c5_extractUsage_total (evt : Json) (u : Usage)
    (h : extractUsage evt = some u) :
    u.totalTokens = u.inputTokens + u.outputTokens := by
  unfold extractUsage at h
  split at h
  · exact absurd h (by simp)
  · split at h
    · cases h
      rfl
    · exact absurd h (by simp)

/-- Demonstration event of the spec: 4 input, 2 output, 1 cached. -/
def usageDemoEvent : Json :=
  .obj [("type", .str "turn.completed"),
        ("usage", .obj [("input_tokens", .num 4), ("output_tokens", .num 2),
                        ("cached_input_tokens", .num 1)])]

/-- Witness for C5 at the spec's concrete input: input 4, output 2 and one
cached token report a total of 6, not 7. -/
theorem c5_extractUsage_total_witness :
    extractUsage usageDemoEvent =
      some { inputTokens := 4, outputTokens := 2, totalTokens := 6, cachedInputTokens := 1 } ∧
    (6 : Int) = 4 + 2 := by
  constructor
  · rfl
  · exact c5_extractUsage_total usageDemoEvent
      { inputTokens := 4, outputTokens := 2, totalTokens := 6, cachedInputTokens := 1 } rfl

/-! Claim C3 (corrected): config-override flattening.  The code flattens an
empty plain object into nothing at all: `addConfigOverride` recurses over
its zero entries and never pushes a pair, so the claimed emission of
`key=` followed by an empty-object literal does not happen. -/

/-- C3 counterexample: an empty plain object produces no argument pair at
all, refuting the claim that empty objects are emitted as an empty-object
literal rather than being omitted. -/
theorem c3_empty_object_counterexample :
    addConfigOverride [] "obj" (Json.obj []) = [] ∧
    addConfigOverride [] "obj" (Json.obj []) ≠ ["-c", "obj=\x7b\x7d"] := by
  exact ⟨rfl, by decide⟩

/-- C3 amended: every entry of the config-override map is flattened
recursively: nested plain objects become dotted keys, arrays are
JSON-serialized (an empty array as the two-character empty-array literal,
not omitted), primitives are stringified directly — but an empty plain
object produces no argument at all (it is omitted). -/
theorem c3_config_override_flattening :
    addConfigOverride [] "a" (Json.obj [("b", Json.obj [("c", Json.bool true)])]) =
      ["-c", "a.b.c=true"] ∧
    addConfigOverride [] "arr" (Json.arr [Json.num 1, Json.num 2]) = ["-c", "arr=[1,2]"] ∧
    addConfigOverride [] "arr" (Json.arr []) = ["-c", "arr=[]"] ∧
    addConfigOverride [] "obj" (Json.obj []) = [] ∧
    (∀ key s, addConfigOverride [] key (Json.str s) = ["-c", key ++ "=" ++ s]) ∧
    (∀ key n, addConfigOverride [] key (Json.num n) = ["-c", key ++ "=" ++ toString n]) ∧
    (∀ key b, addConfigOverride [] key (Json.bool b) =
      ["-c", key ++ "=" ++ (if b then "true" else "false")]) := by
  refine ⟨by decide, by decide, by decide, rfl, ?_, ?_, ?_⟩
  · intro key s
    rfl
  · intro key n
    rfl
  · intro key b
    cases b <;> rfl

/-! Claim C9 (corrected): an already-aborted cancellation signal.  In both
operations the source spawns the subprocess first (line 682, line 869) and
only then consults `abortSignal.aborted` (lines 686-693, 961-968): the
child is started, immediately killed with SIGTERM, and the operation fails
with the signal's reason without producing a result. -/

/-- C9 counterexample: with an already-set cancellation signal, both
operations do start the subprocess (`spawned = true`), refuting the claim
that the request fails without ever starting it. -/
theorem c9_abort_spawns_counterexample :
    (genAbortPhase true true (some "cancelled")).spawned = true ∧
    (streamAbortPhase true true (some "cancelled")).spawned = true :=
  ⟨rfl, rfl⟩

/-- C9 amended: when the cancellation signal is already set, both
operations spawn the subprocess, immediately kill it, and fail early with
the signal's abort reason (or a generic request-aborted error when the
signal has no reason), producing no result. -/
theorem c9_abort_kills_spawned_child (reason : Option String) :
    genAbortPhase true true reason =
      { spawned := true, killedBeforeRun := true,
        earlyFailure := some (reason.getD "Request aborted") } ∧
    streamAbortPhase true true reason =
      { spawned := true, killedBeforeRun := true,
        earlyFailure := some (reason.getD "Request aborted") } :=
  ⟨rfl, rfl⟩

/-! Claim C1 (code bug): failure events and the exit code.  A `turn.failed`
or `error` event normally forces an API-call error even on exit code 0; the
default messages (`Codex turn failed`, `Codex error`) exist precisely so
that a message-less failure event still fails the request.  But an event
whose failure message is the empty string slips through: the nullish
chain keeps the empty string (it is not null/undefined), and the
`if (turnFailureMessage)` truthiness test then treats it as no failure, so
the request resolves successfully. -/

/-- Stdout line of a turn-failed event carrying an empty message. -/
def c1EmptyMsgLine : String := "\x7b\"type\":\"turn.failed\",\"message\":\"\"\x7d"

/-- Stdout line of a turn-failed event carrying a non-empty message. -/
def c1BoomLine : String := "\x7b\"type\":\"turn.failed\",\"message\":\"boom\"\x7d"

/-- C1 (code bug): a turn-failed event with an empty-string message leaves
the pending failure message falsy, so with exit code 0 the non-streaming
request resolves successfully and the streaming channel finishes normally,
contradicting the claim that any turn-failed event forces an API-call
error; a non-empty message does force the error, showing the intent. -/
theorem c1_empty_failure_message_not_fatal :
    genConclusion [c1EmptyMsgLine] 0 (some "sidecar text") =
      .ok "sidecar text" { inputTokens := 0, outputTokens := 0, totalTokens := 0 } none ∧
    streamConclusion [c1EmptyMsgLine] 0 (some "sidecar text") =
      .ok [.streamStart, .responseMetadata [("error", "")],
           .textStart "uuid-0", .textDelta "uuid-0" "sidecar text", .textEnd "uuid-0",
           .finish { inputTokens := 0, outputTokens := 0, totalTokens := 0,
                     cachedInputTokens := 0 }] ∧
    genConclusion [c1BoomLine] 0 (some "sidecar text") = .apiError "boom" := by
  exact ⟨rfl, rfl, rfl⟩

/-! Claim C8 (corrected): response-metadata emission.  The duplicate guard
(`responseMetadataSent`) protects only the session/thread-identifying
branches; `turn.failed` and `error` events call `sendMetadata` with an
error entry unconditionally, so a run can emit several response-metadata
parts. -/

/-- Part classifier: any response-metadata part. -/
def isResponseMetadataB : StreamPart → Bool
  | .responseMetadata _ => true
  | _ => false

/-- Part classifier: a response-metadata part without provider-metadata
entries, i.e. the one emitted by the session/thread-identifying branches
(the failure branches always attach an error entry). -/
def isPlainRespMetaB : StreamPart → Bool
  | .responseMetadata [] => true
  | _ => false

/-- Stdout line of a thread-started event, for the C8 counterexample. -/
def c8ThreadLine : String := "\x7b\"type\":\"thread.started\",\"thread_id\":\"t1\"\x7d"

/-- Stdout line of a turn-failed event, for the C8 counterexample. -/
def c8FailLine : String := "\x7b\"type\":\"turn.failed\",\"message\":\"boom\"\x7d"

/-- C8 counterexample: a run seeing a thread-started event followed by a
turn-failed event emits two response-metadata parts — the failure branch
calls `sendMetadata` without consulting the duplicate-emission flag —
refuting the claim that at most one response-metadata event is emitted
regardless of which events arrive. -/
theorem c8_duplicate_response_metadata_counterexample :
    ((streamRun {} [c8ThreadLine, c8FailLine]).2).countP isResponseMetadataB = 2 := by
  rfl

/-- Potential of the duplicate-emission guard: one plain response-metadata
part may still be emitted while the flag is unset. -/
def metaPotential (st : StreamState) : Nat :=
  if st.responseMetadataSent then 0 else 1

theorem emitToolInvocation_no_meta (id nm : String) (p : Option Json) :
    (emitToolInvocation id nm p).countP isPlainRespMetaB = 0 := by
  by_cases h : (safeStringify p).isEmpty = true <;>
    simp [emitToolInvocation, h, isPlainRespMetaB]

theorem emitToolResult_no_meta (id nm : String) (item result : Json)
    (metadata : Option (List (String × String))) :
    (emitToolResult id nm item result metadata).countP isPlainRespMetaB = 0 := by
  unfold emitToolResult
  simp [isPlainRespMetaB]

theorem toolMapKey_fields (st : StreamState) (item : Json) :
    (toolMapKey st item).2.responseMetadataSent = st.responseMetadataSent ∧
    (toolMapKey st item).2.accumulatedText = st.accumulatedText ∧
    (toolMapKey st item).2.turnFailureMessage = st.turnFailureMessage ∧
    (toolMapKey st item).2.activeTools = st.activeTools := by
  unfold toolMapKey
  split
  · split <;> exact ⟨rfl, rfl, rfl, rfl⟩
  · exact ⟨rfl, rfl, rfl, rfl⟩

theorem handleToolItem_no_meta (st : StreamState) (event item : Json) (toolName : String) :
    ((handleToolItem st event item toolName).2.countP isPlainRespMetaB = 0) ∧
    (handleToolItem st event item toolName).1.responseMetadataSent =
      st.responseMetadataSent := by
  have hkey := (toolMapKey_fields st item).1
  unfold handleToolItem
  rcases hk : toolMapKey st item with ⟨mapKey, st2⟩
  rw [hk] at hkey
  by_cases hemit : (nextToolState st2 mapKey toolName item).hasEmittedCall = true <;>
  by_cases hc : jStrField event "type" = some "item.completed" <;>
    simp [hemit, hc, List.countP_append, emitToolInvocation_no_meta, emitToolResult_no_meta,
      hkey] <;> exact hkey

theorem handleItemEvent_no_meta (st : StreamState) (event : Json) :
    ((handleItemEvent st event).2.countP isPlainRespMetaB = 0) ∧
    (handleItemEvent st event).1.responseMetadataSent = st.responseMetadataSent := by
  unfold handleItemEvent
  split
  · exact ⟨rfl, rfl⟩
  · split
    · exact ⟨rfl, rfl⟩
    · split
      · exact ⟨rfl, rfl⟩
      · split
        · exact ⟨rfl, rfl⟩
        · exact handleToolItem_no_meta _ _ _ _

theorem streamStep_meta_le (st : StreamState) (e : Json) :
    (streamStep st e).2.countP isPlainRespMetaB + metaPotential (streamStep st e).1 ≤
      metaPotential st := by
  have h1 := (handleItemEvent_no_meta st e).1
  have h2 := (handleItemEvent_no_meta st e).2
  unfold streamStep
  dsimp only
  by_cases hms : st.responseMetadataSent = true <;>
    split_ifs <;> (try split) <;> (try split_ifs) <;>
      simp_all [metaPotential, sendMetadata, isPlainRespMetaB]

theorem streamLineStep_meta_le (st : StreamState) (l : String) :
    (streamLineStep st l).2.countP isPlainRespMetaB + metaPotential (streamLineStep st l).1 ≤
      metaPotential st := by
  unfold streamLineStep
  split
  · simp [metaPotential]
  · split
    · exact streamStep_meta_le st _
    · simp [metaPotential]

theorem streamRun_meta_le (lines : List String) (st : StreamState) :
    (streamRun st lines).2.countP isPlainRespMetaB + metaPotential (streamRun st lines).1 ≤
      metaPotential st := by
  induction lines generalizing st with
  | nil => simp [streamRun, metaPotential]
  | cons l ls ih =>
    rw [streamRun]
    have h1 := streamLineStep_meta_le st l
    have h2 := ih (streamLineStep st l).1
    simp only [List.countP_append]
    omega

theorem finishStream_no_meta (st : StreamState) (code : Int) (sidecar : Option String)
    (parts : List StreamPart) (h : finishStream st code sidecar = .ok parts) :
    parts.countP isPlainRespMetaB = 0 := by
  unfold finishStream at h
  split at h
  · exact absurd h (by simp)
  · split at h
    · exact absurd h (by simp)
    · rw [Except.ok.injEq] at h
      subst h
      split <;> simp [isPlainRespMetaB]

/-- C8 amended: at most one response-metadata part without an error entry
(the kind produced by the session/thread-identifying branches) is emitted
over the whole run, however many thread-started or backward-compatible
session-created events arrive; each turn-failed or generic error event,
however, additionally emits a response-metadata part carrying the error
message, so the total number of response-metadata parts is not bounded
by one. -/
theorem c8_response_metadata_once (lines : List String) (code : Int)
    (sidecar : Option String) (parts : List StreamPart)
    (h : streamConclusion lines code sidecar = .ok parts) :
    parts.countP isPlainRespMetaB ≤ 1 := by
  unfold streamConclusion at h
  rcases hf : finishStream (streamRun {} lines).1 code sidecar with e | tailParts
  · rw [hf] at h
    exact absurd h (by simp)
  · rw [hf] at h
    rw [Except.ok.injEq] at h
    subst h
    have h1 := streamRun_meta_le lines {}
    have h2 := finishStream_no_meta _ _ _ _ hf
    simp only [List.countP_append, h2]
    have hpot : metaPotential {} = 1 := rfl
    simp [isPlainRespMetaB]
    omega

/-- Witness for C8's amended theorem: the counterexample run itself has
exactly one errorless response-metadata part. -/
theorem c8_response_metadata_once_witness :
    (∃ parts, streamConclusion [c8ThreadLine] 0 none = .ok parts ∧
      parts.countP isPlainRespMetaB ≤ 1) := by
  refine ⟨_, rfl, ?_⟩
  exact c8_response_metadata_once [c8ThreadLine] 0 none _ rfl

/-! Claim C7: total line parsing and garbage tolerance.  The parser is a
total function into `Option Json` — it cannot throw by construction — and
a line it rejects leaves the request state untouched in both paths, so
processing any stdout stream is equivalent to processing only its
parseable lines, in order. -/

theorem genLineStep_garbage (st : GenState) (l : String)
    (h : parseExperimentalJsonEvent l = none) : genLineStep st l = st := by
  unfold genLineStep
  rw [h]

theorem streamLineStep_garbage (st : StreamState) (l : String)
    (h : parseExperimentalJsonEvent l = none) : streamLineStep st l = (st, []) := by
  unfold streamLineStep
  rw [h]

/-- C7: the line parser is total (every line maps to `some` event or
`none`, never an exception), and a stream interleaving parseable lines
with garbage behaves exactly like the stream of its parseable lines alone,
in order, in both the non-streaming and the streaming path; concretely, a
non-JSON line parses to `none` while a well-formed event line parses to
its event. -/
theorem c7_garbage_lines_ignored :
    (∀ (st : GenState) (lines : List String),
      lines.foldl genLineStep st =
        (lines.filter (fun l => (parseExperimentalJsonEvent l).isSome)).foldl genLineStep st) ∧
    (∀ (st : StreamState) (lines : List String),
      streamRun st lines =
        streamRun st (lines.filter (fun l => (parseExperimentalJsonEvent l).isSome))) ∧
    parseExperimentalJsonEvent "this is not json \x7b" = none ∧
    parseExperimentalJsonEvent "\x7b\"type\":\"thread.started\",\"thread_id\":\"t9\"\x7d" =
      some (.obj [("type", .str "thread.started"), ("thread_id", .str "t9")]) := by
  refine ⟨?_, ?_, rfl, rfl⟩
  · intro st lines
    induction lines generalizing st with
    | nil => rfl
    | cons l ls ih =>
      rcases hp : parseExperimentalJsonEvent l with _ | e
      · rw [List.foldl_cons, List.filter_cons_of_neg (by simp [hp]),
          genLineStep_garbage st l hp]
        exact ih st
      · rw [List.foldl_cons, List.filter_cons_of_pos (by simp [hp]), List.foldl_cons]
        exact ih (genLineStep st l)
  · intro st lines
    induction lines generalizing st with
    | nil => rfl
    | cons l ls ih =>
      rcases hp : parseExperimentalJsonEvent l with _ | e
      · rw [streamRun, List.filter_cons_of_neg (by simp [hp]),
          streamLineStep_garbage st l hp]
        simpa using ih st
      · rw [streamRun, List.filter_cons_of_pos (by simp [hp]), streamRun]
        rcases hsl : streamLineStep st l with ⟨st1, ps⟩
        dsimp only
        rw [ih st1]

/-! Claim C10: behaviour when both text sources are empty. -/

theorem reconcileFinalText_trim_empty (sidecar : String) (h : jsTrim sidecar = "") :
    reconcileFinalText "" (some sidecar) = "" := by
  unfold reconcileFinalText
  by_cases he : sidecar.isEmpty = true <;> simp [he, h]

/-- C10: when the run accumulates no event text and the sidecar file
trims to the empty string, the streaming finish phase emits no
text-start/delta/end parts at all — the channel goes directly to the
finish part — while the non-streaming result still contains exactly one
text part whose text is the empty string. -/
theorem c10_empty_text_paths (lines : List String) (sidecar : String)
    (hg : (genProcess lines).text = "")
    (hs : (streamRun {} lines).1.accumulatedText = "")
    (hf : tfmTruthy (streamRun {} lines).1.turnFailureMessage = false)
    (ht : jsTrim sidecar = "") :
    finishStream (streamRun {} lines).1 0 (some sidecar) =
      .ok [.finish ((streamRun {} lines).1.lastUsage.getD
        { inputTokens := 0, outputTokens := 0, totalTokens := 0, cachedInputTokens := 0 })] ∧
    genContent lines (some sidecar) = [.text ""] := by
  constructor
  · unfold finishStream
    rw [if_neg (by simp), if_neg (by simp [hf]), hs,
      reconcileFinalText_trim_empty sidecar ht]
    rfl
  · unfold genContent
    rw [hg, reconcileFinalText_trim_empty sidecar ht]

/-- Stdout line used by the C10 witness (a session event, no text). -/
def c10ThreadLine : String := "\x7b\"type\":\"thread.started\",\"thread_id\":\"tw\"\x7d"

/-- Witness for C10: a run seeing only a thread-started event, with a
whitespace-only sidecar file, finishes the stream with just the finish
part and returns a single empty text part from the generate path. -/
theorem c10_empty_text_paths_witness :
    ((genProcess [c10ThreadLine]).text = "" ∧
      (streamRun {} [c10ThreadLine]).1.accumulatedText = "" ∧
      tfmTruthy (streamRun {} [c10ThreadLine]).1.turnFailureMessage = false ∧
      jsTrim " " = "") ∧
    finishStream (streamRun {} [c10ThreadLine]).1 0 (some " ") =
      .ok [.finish { inputTokens := 0, outputTokens := 0, totalTokens := 0,
                     cachedInputTokens := 0 }] ∧
    genContent [c10ThreadLine] (some " ") = [.text ""] := by
  refine ⟨⟨rfl, rfl, rfl, rfl⟩, ?_⟩
  exact c10_empty_text_paths [c10ThreadLine] " " rfl rfl rfl rfl

/-! Claim C6: fallback to the sidecar file.  Only a completed
assistant-message item with a string text updates the accumulated final
text; when no such event arrives, the final text is the trimmed sidecar
content in both paths. -/

/-- Condition under which an event updates the accumulated final text:
a completed assistant-message item carrying a string text. -/
abbrev AssistantTextEvent (e : Json) : Prop :=
  jStrField e "type" = some "item.completed" ∧
  (jField e "item").bind getItemType = some "assistant_message" ∧
  ((jField e "item").bind (fun it => jStrField it "text")).isSome = true

/-- Whether processing this stdout line updates the final text. -/
def setsFinalText (line : String) : Bool :=
  match parseExperimentalJsonEvent line with
  | some e => jsTruthy e && decide (AssistantTextEvent e)
  | none => false

theorem genStep_text_preserved (st : GenState) (e : Json)
    (h : ¬ AssistantTextEvent e) : (genStep st e).text = st.text := by
  unfold genStep
  dsimp only
  split_ifs <;> (try split) <;> simp_all [AssistantTextEvent]

theorem handleToolItem_text_preserved (st : StreamState) (event item : Json)
    (toolName : String) :
    (handleToolItem st event item toolName).1.accumulatedText = st.accumulatedText := by
  have hkey := (toolMapKey_fields st item).2.1
  unfold handleToolItem
  rcases hk : toolMapKey st item with ⟨mapKey, st2⟩
  rw [hk] at hkey
  by_cases hc : jStrField event "type" = some "item.completed" <;> simp [hc, hkey] <;>
    exact hkey

theorem handleItemEvent_text_preserved (st : StreamState) (e : Json)
    (h : ¬ AssistantTextEvent e) :
    (handleItemEvent st e).1.accumulatedText = st.accumulatedText := by
  unfold handleItemEvent
  split
  · rfl
  · next item heq =>
    by_cases ht : jsTruthy item = true
    · have hna : ¬(jStrField e "type" = some "item.completed" ∧
          getItemType item = some "assistant_message" ∧
          (jStrField item "text").isSome = true) := by
        intro ha
        exact h ⟨ha.1, by rw [heq]; exact ha.2.1, by rw [heq]; exact ha.2.2⟩
      rw [if_neg (by simp [ht]), if_neg hna]
      split
      · rfl
      · exact handleToolItem_text_preserved _ _ _ _
    · rw [if_pos ht]

theorem streamStep_text_preserved (st : StreamState) (e : Json)
    (h : ¬ AssistantTextEvent e) :
    (streamStep st e).1.accumulatedText = st.accumulatedText := by
  have hi := handleItemEvent_text_preserved st e h
  unfold streamStep
  dsimp only
  split_ifs <;> (try split) <;> (try split_ifs) <;> simp_all

theorem genProcess_no_text (lines : List String) (st : GenState)
    (h : ∀ l ∈ lines, setsFinalText l = false) :
    (lines.foldl genLineStep st).text = st.text := by
  induction lines generalizing st with
  | nil => rfl
  | cons l ls ih =>
    rw [List.foldl_cons]
    rw [ih (genLineStep st l) (fun x hx => h x (List.mem_cons_of_mem l hx))]
    have hl := h l (List.mem_cons_self l ls)
    unfold genLineStep
    rcases hp : parseExperimentalJsonEvent l with _ | e
    · rfl
    · unfold setsFinalText at hl
      rw [hp] at hl
      simp only [Bool.and_eq_false_iff, decide_eq_false_iff_not] at hl
      by_cases htr : jsTruthy e = true
      · rcases hl with hl | hl
        · exact absurd htr (by simp [hl])
        · simp [htr, genStep_text_preserved st e hl]
      · simp [htr]

theorem streamRun_no_text (lines : List String) (st : StreamState)
    (h : ∀ l ∈ lines, setsFinalText l = false) :
    (streamRun st lines).1.accumulatedText = st.accumulatedText := by
  induction lines generalizing st with
  | nil => rfl
  | cons l ls ih =>
    rw [streamRun]
    rcases hsl : streamLineStep st l with ⟨st1, ps⟩
    dsimp only
    rcases hrun : streamRun st1 ls with ⟨st2, rest⟩
    dsimp only
    have h2 : st2.accumulatedText = st1.accumulatedText := by
      have := ih st1 (fun x hx => h x (List.mem_cons_of_mem l hx))
      rw [hrun] at this
      exact this
    rw [h2]
    have hl := h l (List.mem_cons_self l ls)
    unfold streamLineStep at hsl
    rcases hp : parseExperimentalJsonEvent l with _ | e
    · rw [hp] at hsl
      cases hsl
      rfl
    · rw [hp] at hsl
      dsimp only at hsl
      unfold setsFinalText at hl
      rw [hp] at hl
      simp only [Bool.and_eq_false_iff, decide_eq_false_iff_not] at hl
      by_cases htr : jsTruthy e = true
      · rcases hl with hl | hl
        · exact absurd htr (by simp [hl])
        · rw [if_pos htr] at hsl
          have := streamStep_text_preserved st e hl
          rw [hsl] at this
          exact this
      · rw [if_neg htr] at hsl
        cases hsl
        rfl

theorem reconcileFinalText_empty_eq_trim (sidecar : String) :
    reconcileFinalText "" (some sidecar) = jsTrim sidecar := by
  unfold reconcileFinalText
  have h0 : ("" : String).isEmpty = true := rfl
  rw [if_pos h0]
  dsimp only
  by_cases he : sidecar.isEmpty = true
  · rw [if_pos he]
    rw [String.isEmpty_iff] at he
    subst he
    rfl
  · rw [if_neg he]

/-- C6: when no completed assistant-message event with a string text ever
arrives, the final text of both the non-streaming and the streaming path
is the trimmed sidecar content (the non-streaming content array carries it
as its single text part); in particular a reasoning-kind item can never
set the final text. -/
theorem c6_fallback_text (lines : List String) (sidecar : String)
    (h : ∀ l ∈ lines, setsFinalText l = false) :
    reconcileFinalText (genProcess lines).text (some sidecar) = jsTrim sidecar ∧
    reconcileFinalText (streamRun {} lines).1.accumulatedText (some sidecar) =
      jsTrim sidecar ∧
    genContent lines (some sidecar) = [.text (jsTrim sidecar)] ∧
    (∀ e, (jField e "item").bind getItemType = some "reasoning" →
      ¬ AssistantTextEvent e) := by
  have hg : (genProcess lines).text = "" := genProcess_no_text lines {} h
  have hs : (streamRun {} lines).1.accumulatedText = "" := streamRun_no_text lines {} h
  refine ⟨?_, ?_, ?_, ?_⟩
  · rw [hg, reconcileFinalText_empty_eq_trim]
  · rw [hs, reconcileFinalText_empty_eq_trim]
  · unfold genContent
    rw [hg, reconcileFinalText_empty_eq_trim]
  · intro e hr ha
    have h2 := ha.2.1
    rw [hr] at h2
    exact absurd h2 (by simp)

/-- Stdout line of a completed reasoning item, for the C6 witness. -/
def c6ReasoningLine : String :=
  "\x7b\"type\":\"item.completed\",\"item\":\x7b\"item_type\":\"reasoning\",\"text\":\"thinking...\"\x7d\x7d"

/-- Witness for C6: a run seeing only a completed reasoning item returns
the trimmed sidecar content as its final text in both paths. -/
theorem c6_fallback_text_witness :
    (∀ l ∈ [c6ReasoningLine], setsFinalText l = false) ∧
    reconcileFinalText (genProcess [c6ReasoningLine]).text (some "Fallback last message\n") =
      "Fallback last message" ∧
    genContent [c6ReasoningLine] (some "Fallback last message\n") =
      [.text "Fallback last message"] := by
  have h : ∀ l ∈ [c6ReasoningLine], setsFinalText l = false := by decide
  have main := c6_fallback_text [c6ReasoningLine] "Fallback last message\n" h
  exact ⟨h, by rw [main.1]; rfl, by rw [main.2.2.1]; rfl⟩

/-! Claim C2: the tool lifecycle invariant. -/

/-- Part classifier: tool-call part. -/
def isToolCallB : StreamPart → Bool
  | .toolCall _ _ _ _ => true
  | _ => false

/-- Part classifier: tool-result part. -/
def isToolResultB : StreamPart → Bool
  | .toolResult _ _ _ _ _ => true
  | _ => false

/-- Part classifier: tool-input-start part. -/
def isToolInputStartB : StreamPart → Bool
  | .toolInputStart _ _ => true
  | _ => false

/-- Part classifier: tool-input-end part. -/
def isToolInputEndB : StreamPart → Bool
  | .toolInputEnd _ => true
  | _ => false

/-- Provider-executed flag of a tool-call part (vacuously true otherwise). -/
def isProviderExecutedB : StreamPart → Bool
  | .toolCall _ _ _ pe => pe
  | _ => true

/-- One event of the lifecycle of the tool item identified by `id`: an
item-scoped event whose truthy item carries that identifier and a
recognized tool kind. -/
def ToolItemEvent (id : String) (e item : Json) (t toolName : String) : Prop :=
  jStrField e "type" = some t ∧ strStarts "item." t = true ∧
  jField e "item" = some item ∧ jsTruthy item = true ∧
  jStrField item "id" = some id ∧ getToolName item = some toolName

theorem strStarts_item_ne (t : String) (h : strStarts "item." t = true) :
    t ≠ "thread.started" ∧ t ≠ "session.created" ∧ t ≠ "turn.completed" ∧
    t ≠ "turn.failed" ∧ t ≠ "error" := by
  refine ⟨?_, ?_, ?_, ?_, ?_⟩ <;> (intro h1; subst h1; revert h; decide)

theorem getToolName_not_assistant (item : Json) (nm : String)
    (h : getToolName item = some nm) : getItemType item ≠ some "assistant_message" := by
  intro hA
  unfold getToolName at h
  rw [hA] at h
  simp at h

theorem streamStep_item_dispatch (st : StreamState) (e item : Json) (id t nm : String)
    (h : ToolItemEvent id e item t nm) :
    streamStep st e = handleToolItem st e item nm := by
  obtain ⟨hty, hst, hitem, htr, hid, htool⟩ := h
  obtain ⟨n1, n2, n3, n4, n5⟩ := strStarts_item_ne t hst
  unfold streamStep
  dsimp only
  rw [hty]
  rw [if_neg (by simp [n1]), if_neg (by simp [n2]), if_neg (by simp [n3]),
    if_neg (by simp [n4]), if_neg (by simp [n5])]
  dsimp only
  rw [if_pos hst]
  unfold handleItemEvent
  rw [hitem]
  dsimp only
  rw [if_neg (by simp [htr])]
  rw [if_neg (fun ha => getToolName_not_assistant item nm htool ha.2.1)]
  rw [htool]

theorem toolMapKey_of_id (st : StreamState) (item : Json) (id : String)
    (hid : jStrField item "id" = some id) (hne : id.isEmpty = false) :
    toolMapKey st item = (id, st) := by
  unfold toolMapKey
  rw [hid]
  dsimp only
  rw [if_neg (by simp [hne])]

theorem toolsGet_toolsSet (m : List (String × ActiveToolItem)) (k : String)
    (v : ActiveToolItem) : toolsGet (toolsSet m k v) k = some v := by
  induction m with
  | nil => simp [toolsSet, toolsGet, List.find?]
  | cons kv rest ih =>
    by_cases hk : (kv.1 == k) = true
    · unfold toolsSet
      rw [if_pos hk]
      simp [toolsGet, List.find?]
    · unfold toolsSet
      rw [if_neg hk]
      rw [Bool.not_eq_true] at hk
      unfold toolsGet at ih ⊢
      simp only [List.find?, hk]
      exact ih

theorem handleToolItem_first (st : StreamState) (e item : Json) (toolName id : String)
    (hid : jStrField item "id" = some id) (hne : id.isEmpty = false)
    (hget : toolsGet st.activeTools id = none)
    (hc : jStrField e "type" ≠ some "item.completed") :
    handleToolItem st e item toolName =
      ({ st with
          activeTools :=
            toolsSet st.activeTools id
              ({ toolCallId := id, toolName := toolName,
                 inputPayload := buildToolInputPayload item,
                 hasEmittedCall := true } : ActiveToolItem) },
       emitToolInvocation id toolName (buildToolInputPayload item)) := by
  unfold handleToolItem
  rw [toolMapKey_of_id st item id hid hne]
  dsimp only
  unfold nextToolState
  rw [hget]
  dsimp only
  rw [if_neg hc, if_neg (by simp)]

theorem handleToolItem_seen (st : StreamState) (e item : Json) (toolName id : String)
    (ts0 : ActiveToolItem)
    (hid : jStrField item "id" = some id) (hne : id.isEmpty = false)
    (hget : toolsGet st.activeTools id = some ts0) (hEm : ts0.hasEmittedCall = true)
    (hc : jStrField e "type" ≠ some "item.completed") :
    (handleToolItem st e item toolName).2 = [] ∧
    ∃ ts1, toolsGet (handleToolItem st e item toolName).1.activeTools id = some ts1 ∧
      ts1.hasEmittedCall = true := by
  unfold handleToolItem
  rw [toolMapKey_of_id st item id hid hne]
  dsimp only
  unfold nextToolState
  rw [hget]
  dsimp only
  rw [if_neg hc, if_pos hEm]
  refine ⟨rfl, ?_⟩
  exact ⟨_, by dsimp only; rw [toolsGet_toolsSet], rfl⟩

theorem handleToolItem_completed_seen (st : StreamState) (e item : Json)
    (toolName id : String) (ts0 : ActiveToolItem)
    (hid : jStrField item "id" = some id) (hne : id.isEmpty = false)
    (hget : toolsGet st.activeTools id = some ts0) (hEm : ts0.hasEmittedCall = true)
    (hc : jStrField e "type" = some "item.completed") :
    (handleToolItem st e item toolName).2 =
      emitToolResult ts0.toolCallId toolName item (buildToolResultPayload item).1
        (buildToolResultPayload item).2 := by
  unfold handleToolItem
  rw [toolMapKey_of_id st item id hid hne]
  dsimp only
  unfold nextToolState
  rw [hget]
  dsimp only
  rw [if_pos hc, if_pos hEm]
  simp

theorem handleToolItem_completed_first (st : StreamState) (e item : Json)
    (toolName id : String)
    (hid : jStrField item "id" = some id) (hne : id.isEmpty = false)
    (hget : toolsGet st.activeTools id = none)
    (hc : jStrField e "type" = some "item.completed") :
    (handleToolItem st e item toolName).2 =
      emitToolInvocation id toolName (buildToolInputPayload item) ++
        emitToolResult id toolName item (buildToolResultPayload item).1
          (buildToolResultPayload item).2 := by
  unfold handleToolItem
  rw [toolMapKey_of_id st item id hid hne]
  dsimp only
  unfold nextToolState
  rw [hget]
  dsimp only
  rw [if_pos hc, if_neg (by simp)]

theorem emitToolInvocation_counts (id nm : String) (p : Option Json) :
    (emitToolInvocation id nm p).countP isToolCallB = 1 ∧
    (emitToolInvocation id nm p).countP isToolResultB = 0 ∧
    (emitToolInvocation id nm p).countP isToolInputStartB = 1 ∧
    (emitToolInvocation id nm p).countP isToolInputEndB = 1 ∧
    (∀ q ∈ emitToolInvocation id nm p, isToolCallB q = true →
      isProviderExecutedB q = true) := by
  by_cases h : (safeStringify p).isEmpty = true <;>
    simp [emitToolInvocation, h, isToolCallB, isToolResultB, isToolInputStartB,
      isToolInputEndB, isProviderExecutedB]

theorem emitToolResult_counts (id nm : String) (item result : Json)
    (metadata : Option (List (String × String))) :
    (emitToolResult id nm item result metadata).countP isToolCallB = 0 ∧
    (emitToolResult id nm item result metadata).countP isToolResultB = 1 ∧
    (emitToolResult id nm item result metadata).countP isToolInputStartB = 0 ∧
    (emitToolResult id nm item result metadata).countP isToolInputEndB = 0 ∧
    (∀ q ∈ emitToolResult id nm item result metadata, isToolCallB q = true →
      isProviderExecutedB q = true) := by
  simp [emitToolResult, isToolCallB, isToolResultB, isToolInputStartB, isToolInputEndB,
    isProviderExecutedB]

theorem streamSteps_append (st : StreamState) (a b : List Json) :
    streamSteps st (a ++ b) =
      ((streamSteps (streamSteps st a).1 b).1,
       (streamSteps st a).2 ++ (streamSteps (streamSteps st a).1 b).2) := by
  induction a generalizing st with
  | nil => simp [streamSteps]
  | cons e rest ih =>
    rw [List.cons_append, streamSteps, streamSteps]
    rcases hse : streamStep st e with ⟨st1, ps⟩
    dsimp only
    rw [ih st1]
    dsimp only
    rw [List.append_assoc]

theorem toolSteps_seen (id : String) (events : List Json) (st : StreamState)
    (hne : id.isEmpty = false)
    (hall : ∀ e ∈ events, ∃ item t nm, ToolItemEvent id e item t nm ∧ t ≠ "item.completed")
    (hInv : ∃ ts, toolsGet st.activeTools id = some ts ∧ ts.hasEmittedCall = true) :
    (streamSteps st events).2 = [] ∧
    ∃ ts, toolsGet (streamSteps st events).1.activeTools id = some ts ∧
      ts.hasEmittedCall = true := by
  induction events generalizing st with
  | nil => exact ⟨rfl, hInv⟩
  | cons e rest ih =>
    obtain ⟨item, t, nm, hT, hnc⟩ := hall e (List.mem_cons_self e rest)
    obtain ⟨ts0, hget, hEm⟩ := hInv
    have hdisp := streamStep_item_dispatch st e item id t nm hT
    have hseen := handleToolItem_seen st e item nm id ts0 hT.2.2.2.2.1 hne hget hEm
      (by rw [hT.1]; simp [hnc])
    rw [streamSteps]
    rcases hse : streamStep st e with ⟨st1, ps⟩
    dsimp only
    rw [hdisp] at hse
    have hps : ps = [] := by
      have := congrArg Prod.snd hse
      simp at this
      rw [← this]
      exact hseen.1
    have hst1 : ∃ ts, toolsGet st1.activeTools id = some ts ∧ ts.hasEmittedCall = true := by
      have := congrArg Prod.fst hse
      simp at this
      rw [← this]
      exact hseen.2
    obtain ⟨hrest, hfin⟩ := ih st1 (fun x hx => hall x (List.mem_cons_of_mem e hx)) hst1
    rcases hrun : streamSteps st1 rest with ⟨st2, rest2⟩
    rw [hrun] at hrest hfin
    dsimp only
    dsimp only at hrest hfin
    subst hps
    rw [hrest]
    exact ⟨rfl, hfin⟩

theorem streamSteps_singleton (st : StreamState) (c : Json) :
    streamSteps st [c] = ((streamStep st c).1, (streamStep st c).2) := by
  rcases hse : streamStep st c with ⟨st1, ps⟩
  rw [streamSteps, hse]
  dsimp only
  rw [streamSteps]
  simp

/-- C2: for a lifecycle of item events sharing one non-empty identifier
and a recognized tool kind — any number of non-completed sightings
followed by one completion — the tracker emits exactly one tool-call part
(with `providerExecuted = true`, accompanied by exactly one
tool-input-start and one tool-input-end part) and exactly one tool-result
part, and every tool-call part precedes every tool-result part;
intermediate sightings only refresh the cached input and never re-emit the
call sequence. -/
theorem c2_tool_lifecycle (id : String) (pre : List Json) (c : Json) (st0 : StreamState)
    (hne : id.isEmpty = false)
    (hpre : ∀ e ∈ pre, ∃ item t nm, ToolItemEvent id e item t nm ∧ t ≠ "item.completed")
    (hc : ∃ item nm, ToolItemEvent id c item "item.completed" nm)
    (hget : toolsGet st0.activeTools id = none) :
    ∃ l₁ l₂, (streamSteps st0 (pre ++ [c])).2 = l₁ ++ l₂ ∧
      l₁.countP isToolCallB = 1 ∧ l₁.countP isToolResultB = 0 ∧
      l₂.countP isToolCallB = 0 ∧ l₂.countP isToolResultB = 1 ∧
      (streamSteps st0 (pre ++ [c])).2.countP isToolInputStartB = 1 ∧
      (streamSteps st0 (pre ++ [c])).2.countP isToolInputEndB = 1 ∧
      (∀ q ∈ (streamSteps st0 (pre ++ [c])).2, isToolCallB q = true →
        isProviderExecutedB q = true) := by
  obtain ⟨itemc, nmc, hTc⟩ := hc
  cases pre with
  | nil =>
    rw [List.nil_append, streamSteps_singleton,
      streamStep_item_dispatch st0 c itemc id "item.completed" nmc hTc]
    dsimp only
    rw [handleToolItem_completed_first st0 c itemc nmc id hTc.2.2.2.2.1 hne hget hTc.1]
    obtain ⟨i1, i2, i3, i4, i5⟩ :=
      emitToolInvocation_counts id nmc (buildToolInputPayload itemc)
    obtain ⟨r1, r2, r3, r4, r5⟩ :=
      emitToolResult_counts id nmc itemc (buildToolResultPayload itemc).1
        (buildToolResultPayload itemc).2
    refine ⟨_, _, rfl, i1, i2, r1, r2, ?_, ?_, ?_⟩
    · rw [List.countP_append, i3, r3]
    · rw [List.countP_append, i4, r4]
    · intro q hq hcall
      rcases List.mem_append.mp hq with hq | hq
      · exact i5 q hq hcall
      · exact r5 q hq hcall
  | cons e rest =>
    obtain ⟨item, t, nm, hT, hnc⟩ := hpre e (List.mem_cons_self e rest)
    have hcne : jStrField e "type" ≠ some "item.completed" := by
      rw [hT.1]
      simp [hnc]
    have hfirst := handleToolItem_first st0 e item nm id hT.2.2.2.2.1 hne hget hcne
    have hdisp := streamStep_item_dispatch st0 e item id t nm hT
    have hsplit : e :: rest ++ [c] = [e] ++ (rest ++ [c]) := rfl
    rw [hsplit, streamSteps_append, streamSteps_singleton, hdisp, hfirst]
    dsimp only
    have hst1Inv : ∃ ts,
        toolsGet (toolsSet st0.activeTools id
          ({ toolCallId := id, toolName := nm, inputPayload := buildToolInputPayload item,
             hasEmittedCall := true } : ActiveToolItem)) id = some ts ∧
        ts.hasEmittedCall = true :=
      ⟨_, toolsGet_toolsSet _ _ _, rfl⟩
    rw [streamSteps_append]
    obtain ⟨hrest2, ⟨ts2, hget2, hEm2⟩⟩ :=
      toolSteps_seen id rest
        ({ st0 with
            activeTools :=
              toolsSet st0.activeTools id
                ({ toolCallId := id, toolName := nm,
                   inputPayload := buildToolInputPayload item,
                   hasEmittedCall := true } : ActiveToolItem) }) hne
        (fun x hx => hpre x (List.mem_cons_of_mem e hx)) hst1Inv
    rw [hrest2, streamSteps_singleton,
      streamStep_item_dispatch _ c itemc id "item.completed" nmc hTc]
    dsimp only
    rw [handleToolItem_completed_seen _ c itemc nmc id ts2
      hTc.2.2.2.2.1 hne hget2 hEm2 hTc.1]
    obtain ⟨i1, i2, i3, i4, i5⟩ :=
      emitToolInvocation_counts id nm (buildToolInputPayload item)
    obtain ⟨r1, r2, r3, r4, r5⟩ :=
      emitToolResult_counts ts2.toolCallId nmc itemc (buildToolResultPayload itemc).1
        (buildToolResultPayload itemc).2
    refine ⟨emitToolInvocation id nm (buildToolInputPayload item),
      emitToolResult ts2.toolCallId nmc itemc (buildToolResultPayload itemc).1
        (buildToolResultPayload itemc).2,
      by simp, i1, i2, r1, r2, ?_, ?_, ?_⟩
    · rw [List.countP_append, List.countP_append, i3, r3]
      rfl
    · rw [List.countP_append, List.countP_append, i4, r4]
      rfl
    · intro q hq hcall
      simp only [List.mem_append] at hq
      rcases hq with hq | hq | hq
      · exact i5 q hq hcall
      · exact absurd hq (by simp)
      · exact r5 q hq hcall

/-- Item payload of the C2 witness's started event. -/
def c2StartItem : Json :=
  .obj [("id", .str "call1"), ("item_type", .str "command_execution"),
        ("command", .str "ls")]

/-- Item payload of the C2 witness's completed event. -/
def c2DoneItem : Json :=
  .obj [("id", .str "call1"), ("item_type", .str "command_execution"),
        ("command", .str "ls"), ("exit_code", .num 0), ("status", .str "completed")]

/-- Started event of the C2 witness. -/
def c2StartEvt : Json := .obj [("type", .str "item.started"), ("item", c2StartItem)]

/-- Completed event of the C2 witness. -/
def c2DoneEvt : Json := .obj [("type", .str "item.completed"), ("item", c2DoneItem)]

/-- Witness for C2: a command-execution item started and then completed
under the identifier `call1` emits one call sequence followed by one
result. -/
theorem c2_tool_lifecycle_witness :
    ("call1".isEmpty = false ∧
     toolsGet ({} : StreamState).activeTools "call1" = none) ∧
    (∃ l₁ l₂, (streamSteps {} ([c2StartEvt] ++ [c2DoneEvt])).2 = l₁ ++ l₂ ∧
      l₁.countP isToolCallB = 1 ∧ l₁.countP isToolResultB = 0 ∧
      l₂.countP isToolCallB = 0 ∧ l₂.countP isToolResultB = 1 ∧
      (streamSteps {} ([c2StartEvt] ++ [c2DoneEvt])).2.countP isToolInputStartB = 1 ∧
      (streamSteps {} ([c2StartEvt] ++ [c2DoneEvt])).2.countP isToolInputEndB = 1 ∧
      (∀ q ∈ (streamSteps {} ([c2StartEvt] ++ [c2DoneEvt])).2, isToolCallB q = true →
        isProviderExecutedB q = true)) := by
  refine ⟨⟨rfl, rfl⟩, ?_⟩
  exact c2_tool_lifecycle "call1" [c2StartEvt] c2DoneEvt {} rfl
    (fun e he => by
      rw [List.mem_singleton] at he
      subst he
      exact ⟨c2StartItem, "item.started", "exec", ⟨rfl, rfl, rfl, rfl, rfl, rfl⟩,
        by decide⟩)
    ⟨c2DoneItem, "exec", ⟨rfl, rfl, rfl, rfl, rfl, rfl⟩⟩
    rfl

/-! Claim C4 (corrected): autonomy flags versus approval/sandbox overrides.
The autonomy tier itself is mutually exclusive by construction, but the
generic config-override map is appended afterwards and can inject an
`approval_policy=`/`sandbox_mode=` pair alongside `--full-auto`. -/

/-- An argument-list element that is neither an approval/sandbox override
nor one of the two autonomy convenience flags. -/
def autonomyFreeB (a : String) : Bool :=
  !strStarts "approval_policy=" a && !strStarts "sandbox_mode=" a &&
  a != "--full-auto" && a != "--dangerously-bypass-approvals-and-sandbox"

/-- The free-form strings that reach the argument list verbatim: the
resolved base arguments, model id, prompt, the two temp paths, the
profile/color/sidecar settings, and the flattened config-override pairs. -/
def freeFormArgs (base : List String)
    (modelId promptText schemaTmpPath tmpSidecarPath : String)
    (s : CodexCliSettings) : List String :=
  base ++ [modelId, promptText, schemaTmpPath, tmpSidecarPath] ++
  (match s.profile with | some v => [v] | none => []) ++
  (match s.color with | some v => [v] | none => []) ++
  (match s.outputLastMessageFile with | some v => [v] | none => []) ++
  configArgs s

/-- Presence of a `key=` config override among the argument elements. -/
def hasOverrideArg (args : List String) (key : String) : Prop :=
  ∃ a ∈ args, strStarts (key ++ "=") a = true

/-- Settings of the C4 counterexample: full-auto together with a generic
config override whose key is the approval policy. -/
def c4Settings : CodexCliSettings :=
  { fullAuto := some true,
    configOverrides := some [("approval_policy", Json.str "never")] }

/-- C4 counterexample: with full-auto set, a generic config override can
still inject an approval-policy override into the argument list, refuting
the claimed mutual exclusivity for every settings object. -/
theorem c4_autonomy_counterexample :
    "--full-auto" ∈
      (buildArgs [] "gpt-5" "hi" none "/tmp/schema.json" "/tmp/last.txt" c4Settings).1 ∧
    hasOverrideArg
      (buildArgs [] "gpt-5" "hi" none "/tmp/schema.json" "/tmp/last.txt" c4Settings).1
      "approval_policy" := by
  constructor
  · decide
  · exact ⟨"approval_policy=never", by decide, by decide⟩

theorem autonomyFreeB_append (q v : String)
    (h1 : strStarts "approval_policy=" q = false)
    (h2 : strStarts "sandbox_mode=" q = false)
    (hl1 : ("approval_policy=" : String).data.length ≤ q.data.length)
    (hl2 : ("sandbox_mode=" : String).data.length ≤ q.data.length)
    (h3 : strStarts q "--full-auto" = false)
    (h4 : strStarts q "--dangerously-bypass-approvals-and-sandbox" = false) :
    autonomyFreeB (q ++ v) = true := by
  have n3 := append_ne_of_not_strStarts q v _ h3
  have n4 := append_ne_of_not_strStarts q v _ h4
  unfold autonomyFreeB
  rw [strStarts_append _ _ _ hl1, strStarts_append _ _ _ hl2, h1, h2]
  simp [n3, n4]

theorem optStrArgs_cases (v : Option String) (f : String → List String) (a : String)
    (h : a ∈ optStrArgs v f) :
    ∃ x, v = some x ∧ x.isEmpty = false ∧ a ∈ f x := by
  unfold optStrArgs at h
  split at h
  · next x =>
    split at h
    · exact absurd h (by simp)
    · exact ⟨x, rfl, by simp_all, h⟩
  · exact absurd h (by simp)

theorem schemaFilePath_eq (rf : Option Json) (tp p : String)
    (h : schemaFilePath rf tp = some p) : p = tp := by
  unfold schemaFilePath at h
  rcases rf with _ | schema
  · exact absurd h (by simp)
  · dsimp only at h
    by_cases ht : jsTruthy schema = true
    · rw [if_pos ht] at h
      by_cases hk : 0 < numKeys (sanitizeJsonSchema (objSchemaOf schema))
      · rw [if_pos hk] at h
        injection h with h2
        exact h2.symm
      · rw [if_neg hk] at h
        exact absurd h (by simp)
    · rw [if_neg ht] at h
      exact absurd h (by simp)

theorem buildArgs_autonomy_sources (base : List String)
    (modelId promptText schemaTmpPath tmpSidecarPath : String)
    (rf : Option Json) (s : CodexCliSettings)
    (hfree : ∀ a ∈ freeFormArgs base modelId promptText schemaTmpPath tmpSidecarPath s,
      autonomyFreeB a = true) :
    ∀ a ∈ (buildArgs base modelId promptText rf schemaTmpPath tmpSidecarPath s).1,
      autonomyFreeB a = true ∨ a ∈ autonomyArgs s := by
  intro a hmem
  have hFF : ∀ x, x ∈ base ∨ x = modelId ∨ x = promptText ∨ x = schemaTmpPath ∨
      x = tmpSidecarPath ∨ x ∈ configArgs s → autonomyFreeB x = true := by
    intro x hx
    refine hfree x ?_
    unfold freeFormArgs
    rcases hx with hx | hx | hx | hx | hx | hx <;> simp [hx]
  unfold buildArgs at hmem
  rw [List.mem_append] at hmem
  rcases hmem with hmem | h
  · -- last segment: output-last-message flag and sidecar path
    rw [List.mem_append] at hmem
    rcases hmem with hmem | h
    · rw [List.mem_append] at hmem
      rcases hmem with hmem | h
      · rw [List.mem_append] at hmem
        rcases hmem with hmem | h
        · rw [List.mem_append] at hmem
          rcases hmem with hmem | h
          · rw [List.mem_append] at hmem
            rcases hmem with hmem | h
            · rw [List.mem_append] at hmem
              rcases hmem with hmem | h
              · rw [List.mem_append] at hmem
                rcases hmem with hmem | h
                · rw [List.mem_append] at hmem
                  rcases hmem with hmem | h
                  · rw [List.mem_append] at hmem
                    rcases hmem with hmem | h
                    · rw [List.mem_append] at hmem
                      rcases hmem with hmem | h
                      · -- base
                        exact Or.inl (hFF a (Or.inl hmem))
                      · -- ["exec", "--experimental-json"]
                        rcases List.mem_cons.mp h with rfl | h
                        · exact Or.inl (by decide)
                        · rcases List.mem_cons.mp h with rfl | h
                          · exact Or.inl (by decide)
                          · exact absurd h (by simp)
                    · -- autonomyArgs
                      exact Or.inr h
                  · -- skipGitArgs
                    left
                    unfold skipGitArgs at h
                    split at h
                    · rcases List.mem_singleton.mp h with rfl
                      decide
                    · exact absurd h (by simp)
                · -- reasoningArgs
                  left
                  unfold reasoningArgs at h
                  rw [List.mem_append] at h
                  rcases h with h | h
                  · rw [List.mem_append] at h
                    rcases h with h | h
                    · rw [List.mem_append] at h
                      rcases h with h | h
                      · obtain ⟨x, _, _, hx⟩ := optStrArgs_cases _ _ _ h
                        rcases List.mem_cons.mp hx with rfl | hx
                        · decide
                        · rcases List.mem_singleton.mp hx with rfl
                          exact autonomyFreeB_append _ _ (by decide) (by decide)
                            (by decide) (by decide) (by decide) (by decide)
                      · obtain ⟨x, _, _, hx⟩ := optStrArgs_cases _ _ _ h
                        rcases List.mem_cons.mp hx with rfl | hx
                        · decide
                        · rcases List.mem_singleton.mp hx with rfl
                          exact autonomyFreeB_append _ _ (by decide) (by decide)
                            (by decide) (by decide) (by decide) (by decide)
                    · obtain ⟨x, _, _, hx⟩ := optStrArgs_cases _ _ _ h
                      rcases List.mem_cons.mp hx with rfl | hx
                      · decide
                      · rcases List.mem_singleton.mp hx with rfl
                        exact autonomyFreeB_append _ _ (by decide) (by decide)
                          (by decide) (by decide) (by decide) (by decide)
                  · obtain ⟨x, _, _, hx⟩ := optStrArgs_cases _ _ _ h
                    rcases List.mem_cons.mp hx with rfl | hx
                    · decide
                    · rcases List.mem_singleton.mp hx with rfl
                      exact autonomyFreeB_append _ _ (by decide) (by decide)
                        (by decide) (by decide) (by decide) (by decide)
              · -- featureArgs
                left
                unfold featureArgs at h
                rw [List.mem_append] at h
                rcases h with h | h
                · rw [List.mem_append] at h
                  rcases h with h | h
                  · rw [List.mem_append] at h
                    rcases h with h | h
                    · split at h
                      · rcases List.mem_singleton.mp h with rfl
                        decide
                      · exact absurd h (by simp)
                    · obtain ⟨x, hxeq, _, hx⟩ := optStrArgs_cases _ _ _ h
                      rcases List.mem_cons.mp hx with rfl | hx
                      · decide
                      · have hae := List.mem_singleton.mp hx
                        rw [hae]
                        refine hfree x ?_
                        unfold freeFormArgs
                        simp [hxeq]
                  · split at h
                    · rcases List.mem_singleton.mp h with rfl
                      decide
                    · exact absurd h (by simp)
                · split at h
                  · rcases List.mem_cons.mp h with rfl | h
                    · decide
                    · rcases List.mem_singleton.mp h with rfl
                      decide
                  · exact absurd h (by simp)
            · -- colorArgs
              left
              obtain ⟨x, hxeq, _, hx⟩ := optStrArgs_cases _ _ _ h
              rcases List.mem_cons.mp hx with rfl | hx
              · decide
              · have hae := List.mem_singleton.mp hx
                rw [hae]
                refine hfree x ?_
                unfold freeFormArgs
                simp [hxeq]
          · -- modelArgs
            left
            unfold modelArgs at h
            split at h
            · exact absurd h (by simp)
            · rcases List.mem_cons.mp h with rfl | h
              · decide
              · have hae := List.mem_singleton.mp h
                rw [hae]
                exact hFF modelId (Or.inr (Or.inl rfl))
        · -- configArgs
          exact Or.inl (hFF a (Or.inr (Or.inr (Or.inr (Or.inr (Or.inr h))))))
      · -- schemaArgs
        left
        unfold schemaArgs at h
        split at h
        next p hp =>
          rcases List.mem_cons.mp h with rfl | h
          · decide
          · have hae := List.mem_singleton.mp h
            rw [hae, schemaFilePath_eq rf schemaTmpPath p hp]
            exact hFF schemaTmpPath (Or.inr (Or.inr (Or.inr (Or.inl rfl))))
        next => exact absurd h (by simp)
    · -- [promptText]
      have hae := List.mem_singleton.mp h
      rw [hae]
      exact Or.inl (hFF promptText (Or.inr (Or.inr (Or.inl rfl))))
  · -- ["--output-last-message", lastMessagePath]
    left
    rcases List.mem_cons.mp h with rfl | h
    · decide
    · have hae := List.mem_singleton.mp h
      rw [hae]
      unfold lastMessagePathOf
      split
      next p hp =>
        split
        · exact hFF tmpSidecarPath (Or.inr (Or.inr (Or.inr (Or.inr (Or.inl rfl)))))
        · refine hfree p ?_
          unfold freeFormArgs
          simp [hp]
      next => exact hFF tmpSidecarPath (Or.inr (Or.inr (Or.inr (Or.inr (Or.inl rfl)))))

/-- C4 amended: provided the free-form strings (base arguments, model id,
prompt, temp paths, profile/color/sidecar values and the flattened
config-override pairs) neither spell an approval/sandbox override nor one
of the two autonomy flags, the autonomy tier is mutually exclusive with
the explicit approval/sandbox overrides: with full-auto (or the bypass
flag) set no `approval_policy=`/`sandbox_mode=` element ever appears,
and with neither flag set the two overrides appear with their defaults
while neither convenience flag appears.  Without that proviso the claim is
false: the generic config-override map can inject such an override. -/
theorem c4_autonomy_exclusivity (base : List String)
    (modelId promptText schemaTmpPath tmpSidecarPath : String)
    (rf : Option Json) (s : CodexCliSettings)
    (hfree : ∀ a ∈ freeFormArgs base modelId promptText schemaTmpPath tmpSidecarPath s,
      autonomyFreeB a = true) :
    ((s.fullAuto = some true ∨ s.dangerouslyBypassApprovalsAndSandbox = some true) →
      ¬ hasOverrideArg
          (buildArgs base modelId promptText rf schemaTmpPath tmpSidecarPath s).1
          "approval_policy" ∧
      ¬ hasOverrideArg
          (buildArgs base modelId promptText rf schemaTmpPath tmpSidecarPath s).1
          "sandbox_mode") ∧
    (s.fullAuto = some true →
      "--full-auto" ∈
        (buildArgs base modelId promptText rf schemaTmpPath tmpSidecarPath s).1) ∧
    (s.fullAuto ≠ some true → s.dangerouslyBypassApprovalsAndSandbox = some true →
      "--dangerously-bypass-approvals-and-sandbox" ∈
        (buildArgs base modelId promptText rf schemaTmpPath tmpSidecarPath s).1) ∧
    (s.fullAuto ≠ some true → s.dangerouslyBypassApprovalsAndSandbox ≠ some true →
      ("approval_policy=" ++ s.approvalMode.getD "on-failure") ∈
        (buildArgs base modelId promptText rf schemaTmpPath tmpSidecarPath s).1 ∧
      ("sandbox_mode=" ++ s.sandboxMode.getD "workspace-write") ∈
        (buildArgs base modelId promptText rf schemaTmpPath tmpSidecarPath s).1 ∧
      "--full-auto" ∉
        (buildArgs base modelId promptText rf schemaTmpPath tmpSidecarPath s).1 ∧
      "--dangerously-bypass-approvals-and-sandbox" ∉
        (buildArgs base modelId promptText rf schemaTmpPath tmpSidecarPath s).1) := by
  have hsrc := buildArgs_autonomy_sources base modelId promptText schemaTmpPath
    tmpSidecarPath rf s hfree
  have hkey1 : ("approval_policy" ++ "=" : String) = "approval_policy=" := rfl
  have hkey2 : ("sandbox_mode" ++ "=" : String) = "sandbox_mode=" := rfl
  refine ⟨?_, ?_, ?_, ?_⟩
  · intro hauto
    have hflag : autonomyArgs s = ["--full-auto"] ∨
        autonomyArgs s = ["--dangerously-bypass-approvals-and-sandbox"] := by
      by_cases hfa : s.fullAuto = some true
      · exact Or.inl (by simp [autonomyArgs, hfa])
      · rcases hauto with hauto | hauto
        · exact absurd hauto hfa
        · exact Or.inr (by simp [autonomyArgs, hfa, hauto])
    constructor
    · rintro ⟨a, ha, hpref⟩
      rw [hkey1] at hpref
      rcases hsrc a ha with hfa | hin
      · unfold autonomyFreeB at hfa
        simp only [Bool.and_eq_true, Bool.not_eq_true'] at hfa
        rw [hpref] at hfa
        simp at hfa
      · rcases hflag with hflag | hflag <;> rw [hflag] at hin <;>
          rcases List.mem_singleton.mp hin with rfl <;> revert hpref <;> decide
    · rintro ⟨a, ha, hpref⟩
      rw [hkey2] at hpref
      rcases hsrc a ha with hfa | hin
      · unfold autonomyFreeB at hfa
        simp only [Bool.and_eq_true, Bool.not_eq_true'] at hfa
        rw [hpref] at hfa
        simp at hfa
      · rcases hflag with hflag | hflag <;> rw [hflag] at hin <;>
          rcases List.mem_singleton.mp hin with rfl <;> revert hpref <;> decide
  · intro hfa
    have hmem : "--full-auto" ∈ autonomyArgs s := by simp [autonomyArgs, hfa]
    simp only [buildArgs, List.mem_append]
    tauto
  · intro hfa hdb
    have hmem : "--dangerously-bypass-approvals-and-sandbox" ∈ autonomyArgs s := by
      simp [autonomyArgs, hfa, hdb]
    simp only [buildArgs, List.mem_append]
    tauto
  · intro hfa hdb
    have hauto : autonomyArgs s =
        ["-c", "approval_policy=" ++ s.approvalMode.getD "on-failure",
         "-c", "sandbox_mode=" ++ s.sandboxMode.getD "workspace-write"] := by
      simp [autonomyArgs, hfa, hdb]
    refine ⟨?_, ?_, ?_, ?_⟩
    · have hmem : ("approval_policy=" ++ s.approvalMode.getD "on-failure") ∈
          autonomyArgs s := by
        rw [hauto]
        simp
      simp only [buildArgs, List.mem_append]
      tauto
    · have hmem : ("sandbox_mode=" ++ s.sandboxMode.getD "workspace-write") ∈
          autonomyArgs s := by
        rw [hauto]
        simp
      simp only [buildArgs, List.mem_append]
      tauto
    · intro hmem
      rcases hsrc _ hmem with hfa2 | hin
      · exact absurd hfa2 (by decide)
      · rw [hauto] at hin
        rcases List.mem_cons.mp hin with he | hin
        · exact absurd he (by decide)
        · rcases List.mem_cons.mp hin with he | hin
          · exact absurd he.symm
              (append_ne_of_not_strStarts "approval_policy=" _ _ (by decide))
          · rcases List.mem_cons.mp hin with he | hin
            · exact absurd he (by decide)
            · rcases List.mem_singleton.mp hin with he
              exact absurd he.symm
                (append_ne_of_not_strStarts "sandbox_mode=" _ _ (by decide))
    · intro hmem
      rcases hsrc _ hmem with hfa2 | hin
      · exact absurd hfa2 (by decide)
      · rw [hauto] at hin
        rcases List.mem_cons.mp hin with he | hin
        · exact absurd he (by decide)
        · rcases List.mem_cons.mp hin with he | hin
          · exact absurd he.symm
              (append_ne_of_not_strStarts "approval_policy=" _ _ (by decide))
          · rcases List.mem_cons.mp hin with he | hin
            · exact absurd he (by decide)
            · rcases List.mem_singleton.mp hin with he
              exact absurd he.symm
                (append_ne_of_not_strStarts "sandbox_mode=" _ _ (by decide))

/-- Full-auto settings with a benign config override, for the C4 witness. -/
def c4AutoSettings : CodexCliSettings :=
  { fullAuto := some true,
    configOverrides := some [("model_reasoning_effort", Json.str "high")] }

/-- Default settings (neither convenience flag), for the C4 witness. -/
def c4DefaultSettings : CodexCliSettings := {}

/-- Witness for C4's amended theorem: with full-auto set the argument list
has the flag and no approval/sandbox override; with neither flag set it
has both default overrides and no convenience flag. -/
theorem c4_autonomy_exclusivity_witness :
    (∀ a ∈ freeFormArgs ["-y"] "gpt-5" "hello" "/tmp/s.json" "/tmp/l.txt" c4AutoSettings,
      autonomyFreeB a = true) ∧
    ("--full-auto" ∈
        (buildArgs ["-y"] "gpt-5" "hello" none "/tmp/s.json" "/tmp/l.txt" c4AutoSettings).1 ∧
      ¬ hasOverrideArg
          (buildArgs ["-y"] "gpt-5" "hello" none "/tmp/s.json" "/tmp/l.txt" c4AutoSettings).1
          "approval_policy" ∧
      ¬ hasOverrideArg
          (buildArgs ["-y"] "gpt-5" "hello" none "/tmp/s.json" "/tmp/l.txt" c4AutoSettings).1
          "sandbox_mode") ∧
    ("approval_policy=on-failure" ∈
        (buildArgs ["-y"] "gpt-5" "hello" none "/tmp/s.json" "/tmp/l.txt"
          c4DefaultSettings).1 ∧
      "sandbox_mode=workspace-write" ∈
        (buildArgs ["-y"] "gpt-5" "hello" none "/tmp/s.json" "/tmp/l.txt"
          c4DefaultSettings).1 ∧
      "--full-auto" ∉
        (buildArgs ["-y"] "gpt-5" "hello" none "/tmp/s.json" "/tmp/l.txt"
          c4DefaultSettings).1 ∧
      "--dangerously-bypass-approvals-and-sandbox" ∉
        (buildArgs ["-y"] "gpt-5" "hello" none "/tmp/s.json" "/tmp/l.txt"
          c4DefaultSettings).1) := by
  have h1 := c4_autonomy_exclusivity ["-y"] "gpt-5" "hello" "/tmp/s.json" "/tmp/l.txt"
    none c4AutoSettings (by decide)
  have h2 := c4_autonomy_exclusivity ["-y"] "gpt-5" "hello" "/tmp/s.json" "/tmp/l.txt"
    none c4DefaultSettings (by decide)
  exact ⟨by decide,
    ⟨h1.2.1 rfl, (h1.1 (Or.inl rfl)).1, (h1.1 (Or.inl rfl)).2⟩,
    h2.2.2.2 (by decide) (by decide)⟩
